import Mathlib

/-!
# Strawberry message framing: `ext/libstrawberry-common/core/messagehandler.cpp`

A shallow embedding of `_MessageHandlerBase` (the length-prefixed message
reader and writer that sits on a `QIODevice`) together with theorems about
its wire format, its incremental read loop and its close handling.

Modelling conventions

* A byte is a `Fin 256`; a `QByteArray` is a list of bytes.
* The device is the record `QIODevice`: the queue of bytes that can be read
  now, the bytes written so far, whether the device is still open and how
  often it was flushed.
* `RawMessageArrived` and `AbortAll` are pure virtual in the class.  The first
  is a parameter of the model (a `Sink`), the second is counted.  Every call
  of either one is recorded in the handler record (`raw_messages`,
  `abort_all_calls`), so that theorems can speak about what was invoked.
* The `while` loop of `DeviceReadyRead` takes a fuel argument: `none` means
  that the fuel ran out before the loop ended.
-/

namespace Strawberry

/-- One octet. -/
abbrev Byte := Fin 256

/-- Qt byte arrays, as lists of octets. -/
abbrev QByteArray := List Byte

/-- The two device classes `SetDevice` accepts (for any other class it ends
the process with `qFatal`, so no handler for such a device exists). -/
inductive DeviceKind where
  | abstractSocket
  | localSocket
  deriving DecidableEq, Repr

/-- The part of a `QIODevice` the handler touches.  `readable` is the queue of
bytes that have arrived and were not read yet (oldest first), `written` the
bytes written to the device so far, `is_open` is cleared by `close()`, and
`flushes` counts the calls of the socket's `flush()`. -/
structure QIODevice where
  kind : DeviceKind
  readable : QByteArray
  written : QByteArray
  is_open : Bool
  flushes : Nat
  deriving DecidableEq, Repr

/-- Modelled from the spec: the class declaration (`messagehandler.h`) is not
among the sources, so the type of the member `expected_length_` is taken from
the specification, where the length field is an unsigned 32-bit number.  It
is a natural number here; the only values the code stores in it are the 0 of
the constructor and what `QDataStream::operator>>` yields, all below 2^32. -/
abbrev ExpectedLength := Nat

/-- The members of `_MessageHandlerBase` that `messagehandler.cpp` uses,
followed by the two records of calls to the pure virtual members.  The two
flush member pointers are booleans (set or null); `raw_messages` lists the
arguments of the `RawMessageArrived` calls in call order and
`abort_all_calls` counts the `AbortAll` calls. -/
structure _MessageHandlerBase where
  device_ : QIODevice
  flush_abstract_socket_ : Bool
  flush_local_socket_ : Bool
  reading_protobuf_ : Bool
  expected_length_ : ExpectedLength
  buffer_ : QByteArray
  is_device_closed_ : Bool
  raw_messages : List QByteArray
  abort_all_calls : Nat
  deriving DecidableEq, Repr

/-- The answer of `RawMessageArrived`: it may depend on the payload and on the
payloads the sink was given before (first argument, oldest first). -/
abbrev Sink := List QByteArray → QByteArray → Bool

/-- A sink that accepts every payload. -/
def acceptAll : Sink := fun _ _ => true

/-- A sink that rejects every payload. -/
def rejectAll : Sink := fun _ _ => false

/-! ## The device -/

/-- Model of `QIODevice::bytesAvailable()`: nothing is available on a closed
device. -/
def QIODevice.bytesAvailable (d : QIODevice) : Nat :=
  if d.is_open then d.readable.length else 0

/-- Model of `QIODevice::read(qint64 maxSize)`: at most `maxSize` bytes from
the front of the queue; a negative `maxSize` or a closed device gives no
bytes. -/
def QIODevice.read (d : QIODevice) (maxSize : Int) : QByteArray × QIODevice :=
  if d.is_open then
    (d.readable.take maxSize.toNat, { d with readable := d.readable.drop maxSize.toNat })
  else
    ([], d)

/-- Model of `QIODevice::write`: appends to what was written; a closed device
takes nothing. -/
def QIODevice.write (d : QIODevice) (bytes : QByteArray) : QIODevice :=
  if d.is_open then { d with written := d.written ++ bytes } else d

/-- Model of `QIODevice::close()`.  The unread bytes stay in the record, where
they can be inspected; `bytesAvailable` and `read` no longer hand them out. -/
def QIODevice.close (d : QIODevice) : QIODevice :=
  { d with is_open := false }

/-- Model of `QAbstractSocket::flush` and `QLocalSocket::flush`. -/
def QIODevice.flush (d : QIODevice) : QIODevice :=
  { d with flushes := d.flushes + 1 }

/-- New bytes arrive from the peer (the transport does this, not the handler). -/
def QIODevice.arrive (d : QIODevice) (bytes : QByteArray) : QIODevice :=
  { d with readable := d.readable ++ bytes }

/-! ## `QDataStream` (big endian, the Qt default) -/

/-- The cast `quint32(n)`. -/
def quint32 (n : Nat) : Nat := n % 2 ^ 32

/-- The cast `static_cast<int>(n)` of a length (`data.length()`, a 64-bit
`qsizetype`) to a 32-bit `int`: the low 32 bits, read as a signed number. -/
def static_cast_int (n : Nat) : Int :=
  if n % 2 ^ 32 < 2 ^ 31 then ((n % 2 ^ 32 : Nat) : Int)
  else ((n % 2 ^ 32 : Nat) : Int) - 2 ^ 32

/-- The four bytes `QDataStream::operator<<(quint32)` writes, most significant
first. -/
def encode_quint32 (n : Nat) : QByteArray :=
  [⟨n / 2 ^ 24 % 256, Nat.mod_lt _ (by decide)⟩,
   ⟨n / 2 ^ 16 % 256, Nat.mod_lt _ (by decide)⟩,
   ⟨n / 2 ^ 8 % 256, Nat.mod_lt _ (by decide)⟩,
   ⟨n % 256, Nat.mod_lt _ (by decide)⟩]

/-- Model of `QDataStream::operator<<(quint32)`. -/
def QDataStream.write_quint32 (d : QIODevice) (n : Nat) : QIODevice :=
  d.write (encode_quint32 n)

/-- Model of `QDataStream::writeRawData(const char *s, int len)`: the first
`len` bytes of `s`; for a negative `len` the write fails (`QIODevice::write`
returns -1) and nothing is written. -/
def QDataStream.writeRawData (d : QIODevice) (s : QByteArray) (len : Int) : QIODevice :=
  if len < 0 then d else d.write (s.take len.toNat)

/-- Model of `QDataStream::operator>>(quint32 &)`: reads up to four bytes from
the device.  With four bytes the value is their big-endian number; with fewer
the bytes read are gone and the value is 0 (the stream status `ReadPastEnd`
is lost with the local stream object, the code does not look at it). -/
def QDataStream.read_quint32 (d : QIODevice) : Nat × QIODevice :=
  match d.read 4 with
  | ([b0, b1, b2, b3], d') =>
      (b0.val * 2 ^ 24 + b1.val * 2 ^ 16 + b2.val * 2 ^ 8 + b3.val, d')
  | (_, d') => (0, d')

/-! ## `_MessageHandlerBase` -/

/-- The constructor with a device, `SetDevice` included: the parse state is
"awaiting header" with an empty buffer, and the flush member pointer that
belongs to the device class is set. -/
def _MessageHandlerBase.create (device : QIODevice) : _MessageHandlerBase :=
  { device_ := device
    flush_abstract_socket_ := decide (device.kind = DeviceKind.abstractSocket)
    flush_local_socket_ := decide (device.kind = DeviceKind.localSocket)
    reading_protobuf_ := false
    expected_length_ := 0
    buffer_ := []
    is_device_closed_ := false
    raw_messages := []
    abort_all_calls := 0 }

/-- Lines 68-74 of `DeviceReadyRead`: a reader that awaits a header reads the
length of the next message from the device. -/
def _MessageHandlerBase.readLength (h : _MessageHandlerBase) : _MessageHandlerBase :=
  if !h.reading_protobuf_ then
    let r := QDataStream.read_quint32 h.device_
    { h with device_ := r.2, expected_length_ := r.1, reading_protobuf_ := true }
  else h

/-- Line 77 of `DeviceReadyRead`:
`buffer_.write(device_->read(expected_length_ - buffer_.size()))`, the
difference taken in `qint64`. -/
def _MessageHandlerBase.readSome (h : _MessageHandlerBase) : _MessageHandlerBase :=
  let r := h.device_.read ((h.expected_length_ : Int) - (h.buffer_.length : Int))
  { h with device_ := r.2, buffer_ := h.buffer_ ++ r.1 }

/-- The call `RawMessageArrived(buffer_.data())` is recorded. -/
def _MessageHandlerBase.recordCall (h : _MessageHandlerBase) : _MessageHandlerBase :=
  { h with raw_messages := h.raw_messages ++ [h.buffer_] }

/-- Line 84 of `DeviceReadyRead`: `device_->close()`.  The `disconnected`
signal of the socket, to which `DeviceClosed` is connected, is an event of
its own (`Event.disconnected`). -/
def _MessageHandlerBase.closeDevice (h : _MessageHandlerBase) : _MessageHandlerBase :=
  { h with device_ := h.device_.close }

/-- Lines 88-92 of `DeviceReadyRead`: the buffer is cleared and the reader
awaits a header again. -/
def _MessageHandlerBase.clearBuffer (h : _MessageHandlerBase) : _MessageHandlerBase :=
  { h with buffer_ := [], reading_protobuf_ := false }

/-- Model of `_MessageHandlerBase::DeviceReadyRead`, the loop with `fuel`
iterations at its disposal. -/
def _MessageHandlerBase.DeviceReadyRead (RawMessageArrived : Sink) :
    Nat → _MessageHandlerBase → Option _MessageHandlerBase
  | 0, _ => none
  | fuel + 1, h =>
    if h.device_.bytesAvailable > 0 then
      -- read the length of the next message, then some of the message
      let h2 := h.readLength.readSome
      -- did we get everything?
      if h2.buffer_.length = h2.expected_length_ then
        -- parse the message
        if !RawMessageArrived h2.raw_messages h2.buffer_ then
          some h2.recordCall.closeDevice
        else
          _MessageHandlerBase.DeviceReadyRead RawMessageArrived fuel h2.recordCall.clearBuffer
      else
        _MessageHandlerBase.DeviceReadyRead RawMessageArrived fuel h2
    else
      some h

/-- Model of `_MessageHandlerBase::WriteMessage`. -/
def _MessageHandlerBase.WriteMessage (h : _MessageHandlerBase) (data : QByteArray) :
    _MessageHandlerBase :=
  let d1 := QDataStream.write_quint32 h.device_ (quint32 data.length)
  let d2 := QDataStream.writeRawData d1 data (static_cast_int data.length)
  let d3 :=
    if h.flush_abstract_socket_ then d2.flush
    else if h.flush_local_socket_ then d2.flush
    else d2
  { h with device_ := d3 }

/-- Model of `_MessageHandlerBase::DeviceClosed`. -/
def _MessageHandlerBase.DeviceClosed (h : _MessageHandlerBase) : _MessageHandlerBase :=
  { h with is_device_closed_ := true, abort_all_calls := h.abort_all_calls + 1 }

/-! ## Events delivered to one handler -/

/-- What can happen to a handler: bytes arrive and the device signals
`readyRead`, the transport signals `disconnected`, or the owner sends a
message. -/
inductive Event where
  | readyRead (newBytes : QByteArray)
  | disconnected
  | send (data : QByteArray)
  deriving DecidableEq, Repr

/-- One event: the slot connected to the signal runs (`DeviceReadyRead` after
the new bytes were queued on the device, `DeviceClosed`), or `WriteMessage`
is called. -/
def _MessageHandlerBase.handle (RawMessageArrived : Sink) (fuel : Nat)
    (h : _MessageHandlerBase) : Event → Option _MessageHandlerBase
  | Event.readyRead newBytes =>
      _MessageHandlerBase.DeviceReadyRead RawMessageArrived fuel
        { h with device_ := h.device_.arrive newBytes }
  | Event.disconnected => some h.DeviceClosed
  | Event.send data => some (h.WriteMessage data)

/-- A sequence of events, one after the other; each `DeviceReadyRead` call has
`fuel` loop iterations. -/
def _MessageHandlerBase.run (RawMessageArrived : Sink) (fuel : Nat) :
    List Event → _MessageHandlerBase → Option _MessageHandlerBase
  | [], h => some h
  | e :: es, h =>
    match h.handle RawMessageArrived fuel e with
    | none => none
    | some h1 => _MessageHandlerBase.run RawMessageArrived fuel es h1

/-! ## Wire format and test devices -/

/-- The frame of a payload on the wire: the four length bytes, then the
payload. -/
def wireFrame (payload : QByteArray) : QByteArray :=
  encode_quint32 payload.length ++ payload

/-- The frames of several payloads, one after the other. -/
def wireFrames (payloads : List QByteArray) : QByteArray :=
  (payloads.map wireFrame).flatten

/-- An open device of the given class on which `bytes` are ready to be read
and nothing was written. -/
def deviceWith (kind : DeviceKind) (bytes : QByteArray) : QIODevice :=
  { kind := kind, readable := bytes, written := [], is_open := true, flushes := 0 }

/-- The payload "PING". -/
def PING : QByteArray := [0x50, 0x49, 0x4E, 0x47]

/-- A payload of 2^31 zero bytes, the shortest one whose length is not an
`int`. -/
def payload_2_31 : QByteArray := List.replicate (2 ^ 31) 0

/-- A payload of 2^32 zero bytes, the shortest one whose length is not a
`quint32`. -/
def payload_2_32 : QByteArray := List.replicate (2 ^ 32) 0

/-- A fresh handler on a local socket on which `bytes` are ready to be read. -/
def freshReader (bytes : QByteArray) : _MessageHandlerBase :=
  _MessageHandlerBase.create (deviceWith DeviceKind.localSocket bytes)

/-- A reader that has read the length field of "PING" and the first byte of
the payload: it awaits the other three bytes of the body. -/
def readerMidPING : _MessageHandlerBase :=
  { freshReader [] with reading_protobuf_ := true, expected_length_ := 4, buffer_ := [0x50] }

/-- A reader whose sink rejected "PING": the device is closed, the parse state
is the one of the moment the sink was called, and `rest` was never read. -/
def readerRejectedPING (rest : QByteArray) : _MessageHandlerBase :=
  { freshReader [] with
      device_ := { deviceWith DeviceKind.localSocket rest with is_open := false },
      reading_protobuf_ := true, expected_length_ := 4, buffer_ := PING,
      raw_messages := [PING] }

/-! ## Chunkings that keep the length fields whole -/

/-- The pieces of the frame of a payload between which the byte stream may be
cut without splitting the length field: the four length bytes as one piece,
then every body byte as a piece of its own. -/
def framePieces (payload : QByteArray) : List QByteArray :=
  encode_quint32 payload.length :: payload.map (fun b => [b])

/-- The pieces of the frames of several payloads, in stream order.  A chunking
of the stream that splits no length field is a grouping of these pieces into
consecutive groups: each chunk is the bytes of one group. -/
def streamPieces (payloads : List QByteArray) : List QByteArray :=
  (payloads.map framePieces).flatten

/-- The reader `h` is in step with the stream of the frames of `payloads`, of
which the pieces `pieces` are still to come: the sink got the payloads `done`
since the record `raw0`, and either the reader awaits a header and `pieces`
are the frames of the payloads `todo` that are left, or it awaits the missing
bytes `m` of a body, which come first in `pieces`. -/
def InStep (payloads raw0 : List QByteArray) (h : _MessageHandlerBase)
    (pieces : List QByteArray) : Prop :=
  ∃ done todo : List QByteArray, h.raw_messages = raw0 ++ done ∧
    ((h.reading_protobuf_ = false ∧ h.buffer_ = [] ∧ payloads = done ++ todo ∧
        pieces = streamPieces todo) ∨
     (h.reading_protobuf_ = true ∧ ∃ m : QByteArray, m ≠ [] ∧
        h.buffer_.length + m.length = h.expected_length_ ∧
        payloads = done ++ (h.buffer_ ++ m) :: todo ∧
        pieces = m.map (fun b => [b]) ++ streamPieces todo))

/-! ## Reachable states -/

/-- The states a handler can be in, between calls and inside the read loop:
the state after the constructor; after new bytes arrived on the device; after
`DeviceClosed`; after `WriteMessage`; and, inside an iteration of the loop of
`DeviceReadyRead` that found bytes available, the state after the length was
read (where the size of the next read is computed) and the three states an
iteration can end in (the sink rejected, the sink accepted and the buffer was
cleared, the message is not complete yet). -/
inductive Reachable (RawMessageArrived : Sink) : _MessageHandlerBase → Prop where
  | create (device : QIODevice) : Reachable RawMessageArrived (_MessageHandlerBase.create device)
  | arrive (h : _MessageHandlerBase) (newBytes : QByteArray) :
      Reachable RawMessageArrived h →
      Reachable RawMessageArrived { h with device_ := h.device_.arrive newBytes }
  | closed (h : _MessageHandlerBase) :
      Reachable RawMessageArrived h → Reachable RawMessageArrived h.DeviceClosed
  | send (h : _MessageHandlerBase) (data : QByteArray) :
      Reachable RawMessageArrived h → Reachable RawMessageArrived (h.WriteMessage data)
  | lengthRead (h : _MessageHandlerBase) :
      Reachable RawMessageArrived h → 0 < h.device_.bytesAvailable →
      Reachable RawMessageArrived h.readLength
  | rejected (h : _MessageHandlerBase) :
      Reachable RawMessageArrived h → 0 < h.device_.bytesAvailable →
      h.readLength.readSome.buffer_.length = h.readLength.readSome.expected_length_ →
      RawMessageArrived h.readLength.readSome.raw_messages h.readLength.readSome.buffer_
        = false →
      Reachable RawMessageArrived h.readLength.readSome.recordCall.closeDevice
  | accepted (h : _MessageHandlerBase) :
      Reachable RawMessageArrived h → 0 < h.device_.bytesAvailable →
      h.readLength.readSome.buffer_.length = h.readLength.readSome.expected_length_ →
      RawMessageArrived h.readLength.readSome.raw_messages h.readLength.readSome.buffer_
        = true →
      Reachable RawMessageArrived h.readLength.readSome.recordCall.clearBuffer
  | incomplete (h : _MessageHandlerBase) :
      Reachable RawMessageArrived h → 0 < h.device_.bytesAvailable →
      h.readLength.readSome.buffer_.length ≠ h.readLength.readSome.expected_length_ →
      Reachable RawMessageArrived h.readLength.readSome

/-! ## Basic facts about the device and the length field -/

theorem decode_encode_quint32 (n : Nat) (hn : n < 2 ^ 32) :
    n / 2 ^ 24 % 256 * 2 ^ 24 + n / 2 ^ 16 % 256 * 2 ^ 16 + n / 2 ^ 8 % 256 * 2 ^ 8
      + n % 256 = n := by
  norm_num at hn ⊢
  omega

theorem encode_quint32_length (n : Nat) : (encode_quint32 n).length = 4 := rfl

theorem wireFrame_length (P : QByteArray) : (wireFrame P).length = 4 + P.length := by
  simp [wireFrame, encode_quint32_length]

theorem read_quint32_encode (d : QIODevice) (n : Nat) (rest : QByteArray)
    (hopen : d.is_open = true) (hn : n < 2 ^ 32)
    (hq : d.readable = encode_quint32 n ++ rest) :
    QDataStream.read_quint32 d = (n, { d with readable := rest }) := by
  have hdec := decode_encode_quint32 n hn
  simp only [QDataStream.read_quint32, QIODevice.read, hopen, hq, encode_quint32]
  simp
  exact hdec

/-- One loop iteration on a reader that awaits a header and finds a whole
frame at the front of the queue. -/
theorem DeviceReadyRead_frame (sink : Sink) (fuel : Nat) (h : _MessageHandlerBase)
    (P rest : QByteArray)
    (hopen : h.device_.is_open = true) (hrd : h.reading_protobuf_ = false)
    (hbuf : h.buffer_ = []) (hlen : P.length < 2 ^ 32)
    (hq : h.device_.readable = wireFrame P ++ rest) :
    _MessageHandlerBase.DeviceReadyRead sink (fuel + 1) h =
      if sink h.raw_messages P then
        _MessageHandlerBase.DeviceReadyRead sink fuel
          { h with device_ := { h.device_ with readable := rest },
                   expected_length_ := P.length,
                   raw_messages := h.raw_messages ++ [P] }
      else
        some { h with device_ := { h.device_ with readable := rest, is_open := false },
                      expected_length_ := P.length,
                      reading_protobuf_ := true,
                      buffer_ := P,
                      raw_messages := h.raw_messages ++ [P] } := by
  obtain ⟨dev, fa, fl, rd, el, buf, cl, raw, ab⟩ := h
  obtain ⟨k, r, w, o, f⟩ := dev
  simp only at hopen hrd hbuf hq
  subst hopen hrd hbuf hq
  have hh := read_quint32_encode
    { kind := k, readable := wireFrame P ++ rest, written := w, is_open := true, flushes := f }
    P.length (P ++ rest) rfl hlen (by simp [wireFrame])
  simp only [_MessageHandlerBase.DeviceReadyRead, _MessageHandlerBase.readLength,
    _MessageHandlerBase.readSome, _MessageHandlerBase.recordCall,
    _MessageHandlerBase.closeDevice, _MessageHandlerBase.clearBuffer,
    QIODevice.bytesAvailable, hh]
  simp [QIODevice.read, QIODevice.close, wireFrame_length]
  split <;> simp_all

theorem wireFrames_cons (P : QByteArray) (Ps : List QByteArray) :
    wireFrames (P :: Ps) = wireFrame P ++ wireFrames Ps := by
  simp [wireFrames]

/-- A run of whole frames at the front of the queue, each of them accepted by
the sink, costs one loop iteration per frame and leaves the reader awaiting
a header in front of the rest of the queue. -/
theorem DeviceReadyRead_frames (sink : Sink) (fuel : Nat) (Ps : List QByteArray) :
    ∀ (h : _MessageHandlerBase) (rest : QByteArray),
      h.device_.is_open = true → h.reading_protobuf_ = false → h.buffer_ = [] →
      (∀ P ∈ Ps, P.length < 2 ^ 32) →
      h.device_.readable = wireFrames Ps ++ rest →
      (∀ pre P post, Ps = pre ++ P :: post → sink (h.raw_messages ++ pre) P = true) →
      _MessageHandlerBase.DeviceReadyRead sink (Ps.length + fuel) h =
        _MessageHandlerBase.DeviceReadyRead sink fuel
          { h with device_ := { h.device_ with readable := rest },
                   expected_length_ := Ps.foldl (fun _ P => P.length) h.expected_length_,
                   raw_messages := h.raw_messages ++ Ps } := by
  induction Ps with
  | nil =>
    intro h rest _ _ _ _ hq _
    obtain ⟨dev, fa, fl, rd, el, buf, cl, raw, ab⟩ := h
    obtain ⟨k, r, w, o, f⟩ := dev
    simp only [wireFrames, List.map_nil, List.flatten_nil, List.nil_append] at hq
    subst hq
    simp
  | cons P Ps ih =>
    intro h rest hopen hrd hbuf hlen hq hacc
    have hP : P.length < 2 ^ 32 := hlen P (List.mem_cons_self _ _)
    have e1 : (P :: Ps).length + fuel = (Ps.length + fuel) + 1 := by
      simp only [List.length_cons]; omega
    have hq1 : h.device_.readable = wireFrame P ++ (wireFrames Ps ++ rest) := by
      rw [hq, wireFrames_cons, List.append_assoc]
    have hs : sink h.raw_messages P = true := by
      have := hacc [] P Ps rfl
      simpa using this
    rw [e1, DeviceReadyRead_frame sink _ h P _ hopen hrd hbuf hP hq1, if_pos hs]
    have key := ih
      { h with device_ := { h.device_ with readable := wireFrames Ps ++ rest },
               expected_length_ := P.length,
               raw_messages := h.raw_messages ++ [P] }
      rest hopen hrd hbuf (fun Q hQ => hlen Q (List.mem_cons_of_mem _ hQ)) rfl
      (by
        intro pre Q post hPs
        have := hacc (P :: pre) Q post (by rw [hPs]; rfl)
        simpa [List.append_assoc] using this)
    rw [key]
    simp [List.append_assoc]

/-- With nothing to read the loop ends at once. -/
theorem DeviceReadyRead_idle (sink : Sink) (fuel : Nat) (h : _MessageHandlerBase)
    (hq : h.device_.bytesAvailable = 0) :
    _MessageHandlerBase.DeviceReadyRead sink (fuel + 1) h = some h := by
  simp [_MessageHandlerBase.DeviceReadyRead, hq]

/-- Below 2^31 bytes `WriteMessage` appends the frame of the payload to what
was written on an open device. -/
theorem WriteMessage_written (h : _MessageHandlerBase) (P : QByteArray)
    (hopen : h.device_.is_open = true) (hlen : P.length < 2 ^ 31) :
    (h.WriteMessage P).device_.written = h.device_.written ++ wireFrame P := by
  have h1 : P.length % 2 ^ 32 = P.length := Nat.mod_eq_of_lt (by omega)
  have h2 : static_cast_int P.length = (P.length : Int) := by
    simp only [static_cast_int, h1, if_pos hlen]
  have h3 : ¬ ((P.length : Int) < 0) := by omega
  simp only [_MessageHandlerBase.WriteMessage, QDataStream.write_quint32,
    QDataStream.writeRawData, quint32, h1, h2, h3, if_false, QIODevice.write, hopen,
    if_true, Int.toNat_ofNat, List.take_length, wireFrame, QIODevice.flush]
  split
  · simp
  · split <;> simp

theorem payload_2_31_length : payload_2_31.length = 2 ^ 31 :=
  List.length_replicate _ _

theorem payload_2_32_length : payload_2_32.length = 2 ^ 32 :=
  List.length_replicate _ _

theorem static_cast_int_2_31 : static_cast_int payload_2_31.length = -(2 ^ 31) := by
  rw [payload_2_31_length]
  decide

theorem static_cast_int_2_32 : static_cast_int payload_2_32.length = 0 := by
  rw [payload_2_32_length]
  decide

theorem encode_quint32_2_31 :
    encode_quint32 (quint32 payload_2_31.length) = [0x80, 0, 0, 0] := by
  rw [payload_2_31_length]
  decide

theorem encode_quint32_2_32 :
    encode_quint32 (quint32 payload_2_32.length) = [0, 0, 0, 0] := by
  rw [payload_2_32_length]
  decide

/-- What `WriteMessage` writes for the payload of 2^31 bytes: the length field
and nothing of the payload, because the length is negative as an `int`. -/
theorem WriteMessage_payload_2_31 (kind : DeviceKind) :
    ((_MessageHandlerBase.create (deviceWith kind [])).WriteMessage
      payload_2_31).device_.written = [0x80, 0, 0, 0] := by
  simp only [_MessageHandlerBase.WriteMessage, static_cast_int_2_31, encode_quint32_2_31,
    QDataStream.write_quint32, QDataStream.writeRawData]
  cases kind <;> rfl

/-- What `WriteMessage` writes for the payload of 2^32 bytes: a length field of
zero and nothing of the payload. -/
theorem WriteMessage_payload_2_32 (kind : DeviceKind) :
    ((_MessageHandlerBase.create (deviceWith kind [])).WriteMessage
      payload_2_32).device_.written = [0, 0, 0, 0] := by
  simp only [_MessageHandlerBase.WriteMessage, static_cast_int_2_32, encode_quint32_2_32,
    QDataStream.write_quint32, QDataStream.writeRawData]
  cases kind <;> rfl

/-- A fresh reader that is given only the length field `80 00 00 00` waits for
2^31 body bytes and invokes nothing. -/
theorem DeviceReadyRead_header_2_31 (sink : Sink) (kind : DeviceKind) (fuel : Nat) :
    _MessageHandlerBase.DeviceReadyRead sink (fuel + 2)
        (_MessageHandlerBase.create (deviceWith kind [0x80, 0, 0, 0])) =
      some { _MessageHandlerBase.create (deviceWith kind []) with
               reading_protobuf_ := true, expected_length_ := 2 ^ 31 } := by
  cases kind <;> rfl

/-! ## Round trip and wire format -/

/-- Round trip below 2^31 bytes: what `WriteMessage` writes for a payload of
fewer than 2^31 bytes, made available at once to a fresh reader whose sink
accepts it, is handed to the sink once, unchanged, and the reader is back in
the awaiting-header state with an empty buffer and an empty queue. -/
theorem round_trip_below_2_31 (sink : Sink) (kind kind1 : DeviceKind) (P : QByteArray)
    (fuel : Nat) (hlen : P.length < 2 ^ 31) (hacc : sink [] P = true) :
    _MessageHandlerBase.DeviceReadyRead sink (fuel + 2)
        (_MessageHandlerBase.create (deviceWith kind
          ((_MessageHandlerBase.create (deviceWith kind1 [])).WriteMessage P).device_.written)) =
      some { _MessageHandlerBase.create (deviceWith kind []) with
               expected_length_ := P.length, raw_messages := [P] } := by
  rw [WriteMessage_written _ P rfl hlen]
  have hq : (_MessageHandlerBase.create (deviceWith kind
      ((_MessageHandlerBase.create (deviceWith kind1 [])).device_.written
        ++ wireFrame P))).device_.readable = wireFrame P ++ [] := by
    simp [_MessageHandlerBase.create, deviceWith]
  rw [DeviceReadyRead_frame sink (fuel + 1) _ P [] rfl rfl rfl (by omega) hq]
  have hacc1 : sink (_MessageHandlerBase.create (deviceWith kind
      ((_MessageHandlerBase.create (deviceWith kind1 [])).device_.written
        ++ wireFrame P))).raw_messages P = true := hacc
  rw [if_pos hacc1, DeviceReadyRead_idle]
  · rfl
  · rfl

/-- C1, the code at the failing input: the payload of 2^31 zero bytes is within
the stated bound of 2^32 - 1, yet the bytes `WriteMessage` writes for it,
made available at once to a fresh reader, lead to no call of the sink at all:
the reader decodes the length 2^31 and keeps waiting for a body that was
never written. -/
theorem round_trip_payload_2_31 (sink : Sink) (kind kind1 : DeviceKind) (fuel : Nat) :
    payload_2_31.length ≤ 2 ^ 32 - 1 ∧
    ∃ h1, _MessageHandlerBase.DeviceReadyRead sink (fuel + 2)
        (_MessageHandlerBase.create (deviceWith kind
          ((_MessageHandlerBase.create (deviceWith kind1 [])).WriteMessage
            payload_2_31).device_.written)) = some h1 ∧
      h1.raw_messages = [] ∧ h1.reading_protobuf_ = true ∧
      h1.expected_length_ = 2 ^ 31 ∧ h1.buffer_ = [] := by
  refine ⟨?_, ?_⟩
  · rw [payload_2_31_length]; decide
  · rw [WriteMessage_payload_2_31, DeviceReadyRead_header_2_31]
    exact ⟨_, rfl, rfl, rfl, rfl, rfl⟩

/-- C3: for every list of payloads, each at most 2^32 - 1 bytes long, whose
frames are available one after the other to a fresh reader in a single
`DeviceReadyRead` call, and a sink that accepts each of them in turn, the call
returns (with one loop iteration per frame and one more to see the empty
queue) and `RawMessageArrived` was invoked exactly on the payloads of the list,
in their order; the reader awaits a header with an empty buffer and has read
every byte. -/
theorem multi_frame_batching (sink : Sink) (kind : DeviceKind) (payloads : List QByteArray)
    (fuel : Nat)
    (hlen : ∀ P ∈ payloads, P.length ≤ 2 ^ 32 - 1)
    (hacc : ∀ pre P post, payloads = pre ++ P :: post → sink pre P = true)
    (hfuel : payloads.length + 1 ≤ fuel) :
    ∃ h1, _MessageHandlerBase.DeviceReadyRead sink fuel
        (_MessageHandlerBase.create (deviceWith kind (wireFrames payloads))) = some h1 ∧
      h1.raw_messages = payloads ∧ h1.reading_protobuf_ = false ∧ h1.buffer_ = [] ∧
      h1.device_.readable = [] ∧ h1.device_.is_open = true := by
  obtain ⟨k, rfl⟩ : ∃ k, fuel = payloads.length + (k + 1) := ⟨fuel - payloads.length - 1, by omega⟩
  rw [DeviceReadyRead_frames sink (k + 1) payloads _ [] rfl rfl rfl
    (fun P hP => by have := hlen P hP; omega)
    (by simp [_MessageHandlerBase.create, deviceWith])
    (by
      intro pre P post hp
      simpa [_MessageHandlerBase.create] using hacc pre P post hp)]
  rw [DeviceReadyRead_idle]
  · exact ⟨_, rfl, by simp [_MessageHandlerBase.create], rfl, rfl, rfl, rfl⟩
  · rfl

/-- C3 at three payloads ("PING", the empty payload and one zero byte) with the
sink that accepts everything. -/
theorem multi_frame_batching_witness :
    ∃ h1, _MessageHandlerBase.DeviceReadyRead acceptAll 4
        (_MessageHandlerBase.create
          (deviceWith DeviceKind.localSocket (wireFrames [PING, [], [0]]))) = some h1 ∧
      h1.raw_messages = [PING, [], [0]] ∧ h1.reading_protobuf_ = false ∧ h1.buffer_ = [] ∧
      h1.device_.readable = [] ∧ h1.device_.is_open = true :=
  multi_frame_batching acceptAll DeviceKind.localSocket [PING, [], [0]] 4
    (by decide) (fun _ _ _ _ => rfl) (by decide)

/-- The payload "PING" is written as `00 00 00 04 50 49 4E 47`, followed by one
flush of the socket. -/
theorem WriteMessage_PING (kind : DeviceKind) :
    ((_MessageHandlerBase.create (deviceWith kind [])).WriteMessage PING).device_ =
      { deviceWith kind [] with
          written := [0x00, 0x00, 0x00, 0x04, 0x50, 0x49, 0x4E, 0x47], flushes := 1 } := by
  cases kind <;> rfl

/-- C4, the code at the failing input: the payload of 2^31 zero bytes is within
the stated bound of 2^32 - 1, and `WriteMessage` writes four bytes for it, the
length field `80 00 00 00`, instead of the 4 + 2^31 bytes of its frame: no
payload byte reaches the device. -/
theorem WriteMessage_payload_2_31_header_only (kind : DeviceKind) :
    payload_2_31.length ≤ 2 ^ 32 - 1 ∧
    ((_MessageHandlerBase.create (deviceWith kind [])).WriteMessage
      payload_2_31).device_.written = [0x80, 0, 0, 0] ∧
    ((_MessageHandlerBase.create (deviceWith kind [])).WriteMessage
      payload_2_31).device_.written.length ≠ 4 + payload_2_31.length ∧
    ((_MessageHandlerBase.create (deviceWith kind [])).WriteMessage
      payload_2_31).device_.written ≠ wireFrame payload_2_31 := by
  have hw := WriteMessage_payload_2_31 kind
  refine ⟨?_, hw, ?_, ?_⟩
  · rw [payload_2_31_length]; decide
  · rw [hw, payload_2_31_length]; decide
  · intro hEq
    have hl := congrArg List.length hEq
    rw [hw, wireFrame_length, payload_2_31_length] at hl
    revert hl
    decide

/-- C5: `WriteMessage` of the empty payload writes exactly `00 00 00 00`, and a
fresh reader that is given exactly these four bytes invokes the sink exactly
once, with the empty payload, within that one `DeviceReadyRead` call, whatever
the sink answers. -/
theorem zero_length_payload (sink : Sink) (kind kind1 : DeviceKind) (fuel : Nat) :
    ((_MessageHandlerBase.create (deviceWith kind1 [])).WriteMessage []).device_.written
      = [0, 0, 0, 0] ∧
    ∃ h1, _MessageHandlerBase.DeviceReadyRead sink (fuel + 2)
        (_MessageHandlerBase.create (deviceWith kind
          ((_MessageHandlerBase.create (deviceWith kind1 [])).WriteMessage []).device_.written))
        = some h1 ∧
      h1.raw_messages = [[]] ∧ h1.device_.readable = [] := by
  have hw : ((_MessageHandlerBase.create (deviceWith kind1 [])).WriteMessage
      []).device_.written = [0, 0, 0, 0] := by
    cases kind1 <;> rfl
  refine ⟨hw, ?_⟩
  rw [hw]
  have hq : (_MessageHandlerBase.create (deviceWith kind [0, 0, 0, 0])).device_.readable
      = wireFrame [] ++ [] := rfl
  rw [DeviceReadyRead_frame sink (fuel + 1) _ [] [] rfl rfl rfl (by decide) hq]
  split
  · rw [DeviceReadyRead_idle]
    · exact ⟨_, rfl, rfl, rfl⟩
    · rfl
  · exact ⟨_, rfl, rfl, rfl⟩

/-! ## Invariants of the read loop -/

/-- A property that every loop iteration hands on holds when the call
returns. -/
theorem DeviceReadyRead_invariant (sink : Sink) (Inv : _MessageHandlerBase → Prop)
    (hrej : ∀ h, Inv h → 0 < h.device_.bytesAvailable →
      h.readLength.readSome.buffer_.length = h.readLength.readSome.expected_length_ →
      sink h.readLength.readSome.raw_messages h.readLength.readSome.buffer_ = false →
      Inv h.readLength.readSome.recordCall.closeDevice)
    (hacc : ∀ h, Inv h → 0 < h.device_.bytesAvailable →
      h.readLength.readSome.buffer_.length = h.readLength.readSome.expected_length_ →
      sink h.readLength.readSome.raw_messages h.readLength.readSome.buffer_ = true →
      Inv h.readLength.readSome.recordCall.clearBuffer)
    (hmore : ∀ h, Inv h → 0 < h.device_.bytesAvailable →
      h.readLength.readSome.buffer_.length ≠ h.readLength.readSome.expected_length_ →
      Inv h.readLength.readSome) :
    ∀ (fuel : Nat) (h h1 : _MessageHandlerBase), Inv h →
      _MessageHandlerBase.DeviceReadyRead sink fuel h = some h1 → Inv h1 := by
  intro fuel
  induction fuel with
  | zero =>
    intro h h1 _ hr
    simp [_MessageHandlerBase.DeviceReadyRead] at hr
  | succ n ih =>
    intro h h1 hinv hr
    simp only [_MessageHandlerBase.DeviceReadyRead] at hr
    by_cases hav : 0 < h.device_.bytesAvailable
    · rw [if_pos hav] at hr
      by_cases hfull : h.readLength.readSome.buffer_.length
          = h.readLength.readSome.expected_length_
      · rw [if_pos hfull] at hr
        cases hs : sink h.readLength.readSome.raw_messages h.readLength.readSome.buffer_
        · simp only [hs, Bool.not_false, if_true, Option.some.injEq] at hr
          rw [← hr]
          exact hrej h hinv hav hfull hs
        · simp only [hs, Bool.not_true, Bool.false_eq_true, if_false] at hr
          exact ih _ _ (hacc h hinv hav hfull hs) hr
      · rw [if_neg hfull] at hr
        exact ih _ _ (hmore h hinv hav hfull) hr
    · rw [if_neg hav] at hr
      simp only [Option.some.injEq] at hr
      rw [← hr]
      exact hinv

/-- The read loop calls neither `AbortAll` nor `DeviceClosed`. -/
theorem DeviceReadyRead_abort_all_calls (sink : Sink) (fuel : Nat)
    (h h1 : _MessageHandlerBase)
    (hr : _MessageHandlerBase.DeviceReadyRead sink fuel h = some h1) :
    h1.abort_all_calls = h.abort_all_calls ∧ h1.is_device_closed_ = h.is_device_closed_ := by
  refine DeviceReadyRead_invariant sink
    (fun s => s.abort_all_calls = h.abort_all_calls ∧
      s.is_device_closed_ = h.is_device_closed_) ?_ ?_ ?_ fuel h h1 ⟨rfl, rfl⟩ hr
  · intro s hs _ _ _
    simpa [_MessageHandlerBase.readLength, _MessageHandlerBase.readSome,
      _MessageHandlerBase.recordCall, _MessageHandlerBase.closeDevice] using
      (show s.readLength.abort_all_calls = h.abort_all_calls ∧
        s.readLength.is_device_closed_ = h.is_device_closed_ by
        unfold _MessageHandlerBase.readLength; split <;> exact hs)
  · intro s hs _ _ _
    simpa [_MessageHandlerBase.readLength, _MessageHandlerBase.readSome,
      _MessageHandlerBase.recordCall, _MessageHandlerBase.clearBuffer] using
      (show s.readLength.abort_all_calls = h.abort_all_calls ∧
        s.readLength.is_device_closed_ = h.is_device_closed_ by
        unfold _MessageHandlerBase.readLength; split <;> exact hs)
  · intro s hs _ _
    simpa [_MessageHandlerBase.readLength, _MessageHandlerBase.readSome] using
      (show s.readLength.abort_all_calls = h.abort_all_calls ∧
        s.readLength.is_device_closed_ = h.is_device_closed_ by
        unfold _MessageHandlerBase.readLength; split <;> exact hs)

/-- One loop iteration on a reader that awaits a body and finds the missing
bytes `c` of it at the front of the queue. -/
theorem DeviceReadyRead_body (sink : Sink) (fuel : Nat) (h : _MessageHandlerBase)
    (c rest : QByteArray)
    (hopen : h.device_.is_open = true) (hrd : h.reading_protobuf_ = true)
    (hexp : h.buffer_.length + c.length = h.expected_length_)
    (hq : h.device_.readable = c ++ rest) (hne : c ++ rest ≠ []) :
    _MessageHandlerBase.DeviceReadyRead sink (fuel + 1) h =
      if sink h.raw_messages (h.buffer_ ++ c) then
        _MessageHandlerBase.DeviceReadyRead sink fuel
          { h with device_ := { h.device_ with readable := rest },
                   reading_protobuf_ := false,
                   buffer_ := [],
                   raw_messages := h.raw_messages ++ [h.buffer_ ++ c] }
      else
        some { h with device_ := { h.device_ with readable := rest, is_open := false },
                      buffer_ := h.buffer_ ++ c,
                      raw_messages := h.raw_messages ++ [h.buffer_ ++ c] } := by
  obtain ⟨dev, fa, fl, rd, el, buf, cl, raw, ab⟩ := h
  obtain ⟨k, r, w, o, f⟩ := dev
  simp only at hopen hrd hexp hq
  subst hopen hrd hexp hq
  have hpos : 0 < (c ++ rest).length := List.length_pos.mpr hne
  have hn : (((buf.length + c.length : Nat) : Int) - (buf.length : Int)).toNat = c.length := by
    omega
  simp only [_MessageHandlerBase.DeviceReadyRead, _MessageHandlerBase.readLength,
    _MessageHandlerBase.readSome, _MessageHandlerBase.recordCall,
    _MessageHandlerBase.closeDevice, _MessageHandlerBase.clearBuffer,
    QIODevice.bytesAvailable, QIODevice.read, QIODevice.close, hn]
  rw [if_pos (by simpa using hpos)]
  cases hs : sink raw (buf ++ c) <;> simp [hs]

theorem readLength_of_reading (h : _MessageHandlerBase) (hrd : h.reading_protobuf_ = true) :
    h.readLength = h := by
  simp [_MessageHandlerBase.readLength, hrd]

theorem readLength_raw_messages (h : _MessageHandlerBase) :
    h.readLength.raw_messages = h.raw_messages := by
  unfold _MessageHandlerBase.readLength
  split <;> rfl

theorem readSome_buffer_length_le (h : _MessageHandlerBase)
    (hle : h.buffer_.length ≤ h.expected_length_) :
    h.readSome.buffer_.length ≤ h.expected_length_ := by
  unfold _MessageHandlerBase.readSome QIODevice.read
  split
  · simp only [List.length_append, List.length_take]
    omega
  · simpa using hle

theorem readSome_buffer_extends (h : _MessageHandlerBase) :
    h.buffer_ <+: h.readSome.buffer_ := by
  unfold _MessageHandlerBase.readSome
  exact List.prefix_append _ _

/-- A frame in the making is only ever handed to the sink in full: for a reader
that awaits a body with the bytes `b` in a buffer shorter than the expected
length `e`, either the sink was not invoked yet and the reader still waits
for that body, or the first invocation since then got a payload of `e` bytes
that begins with `b`. -/
theorem DeviceReadyRead_partial (sink : Sink) (b : QByteArray) (e : Nat)
    (raw0 : List QByteArray) (fuel : Nat) (h h1 : _MessageHandlerBase)
    (hinv : (h.raw_messages = raw0 ∧ h.reading_protobuf_ = true ∧ h.expected_length_ = e ∧
        b <+: h.buffer_ ∧ h.buffer_.length < e) ∨
      (∃ p rest, h.raw_messages = raw0 ++ p :: rest ∧ p.length = e ∧ b <+: p))
    (hr : _MessageHandlerBase.DeviceReadyRead sink fuel h = some h1) :
    (h1.raw_messages = raw0 ∧ h1.reading_protobuf_ = true ∧ h1.expected_length_ = e ∧
        b <+: h1.buffer_ ∧ h1.buffer_.length < e) ∨
      (∃ p rest, h1.raw_messages = raw0 ++ p :: rest ∧ p.length = e ∧ b <+: p) := by
  have hdone : ∀ s : _MessageHandlerBase,
      ((s.raw_messages = raw0 ∧ s.reading_protobuf_ = true ∧ s.expected_length_ = e ∧
        b <+: s.buffer_ ∧ s.buffer_.length < e) ∨
      (∃ p rest, s.raw_messages = raw0 ++ p :: rest ∧ p.length = e ∧ b <+: p)) →
      s.readLength.readSome.buffer_.length = s.readLength.readSome.expected_length_ →
      ∃ p rest, s.readLength.readSome.raw_messages ++ [s.readLength.readSome.buffer_]
        = raw0 ++ p :: rest ∧ p.length = e ∧ b <+: p := by
    intro s hs hfull
    rcases hs with ⟨h1, h2, h3, h4, _⟩ | ⟨p, rest, h1, h2, h3⟩
    · rw [readLength_of_reading s h2] at hfull ⊢
      refine ⟨s.readSome.buffer_, [], ?_, ?_, ?_⟩
      · simp [_MessageHandlerBase.readSome, h1]
      · rw [hfull]; simpa [_MessageHandlerBase.readSome] using h3
      · exact h4.trans (readSome_buffer_extends s)
    · refine ⟨p, rest ++ [s.readLength.readSome.buffer_], ?_, h2, h3⟩
      have : s.readLength.readSome.raw_messages = s.raw_messages := by
        simp [_MessageHandlerBase.readSome, readLength_raw_messages]
      rw [this, h1]
      simp
  refine DeviceReadyRead_invariant sink
    (fun s => (s.raw_messages = raw0 ∧ s.reading_protobuf_ = true ∧ s.expected_length_ = e ∧
        b <+: s.buffer_ ∧ s.buffer_.length < e) ∨
      (∃ p rest, s.raw_messages = raw0 ++ p :: rest ∧ p.length = e ∧ b <+: p))
    ?_ ?_ ?_ fuel h h1 hinv hr
  · intro s hs _ hfull _
    exact Or.inr (by
      simpa [_MessageHandlerBase.recordCall, _MessageHandlerBase.closeDevice]
        using hdone s hs hfull)
  · intro s hs _ hfull _
    exact Or.inr (by
      simpa [_MessageHandlerBase.recordCall, _MessageHandlerBase.clearBuffer]
        using hdone s hs hfull)
  · intro s hs _ hne
    rcases hs with ⟨h1, h2, h3, h4, h5⟩ | ⟨p, rest, h1, h2, h3⟩
    · rw [readLength_of_reading s h2] at hne ⊢
      have h3n : @Eq Nat s.expected_length_ e := h3
      have hle : s.readSome.buffer_.length ≤ (s.expected_length_ : Nat) :=
        readSome_buffer_length_le s (by omega)
      have hexp : s.readSome.expected_length_ = s.expected_length_ := rfl
      refine Or.inl ⟨?_, ?_, ?_, h4.trans (readSome_buffer_extends s), ?_⟩
      · simpa [_MessageHandlerBase.readSome] using h1
      · simpa [_MessageHandlerBase.readSome] using h2
      · simpa [_MessageHandlerBase.readSome] using h3
      · rw [hexp] at hne
        have hne1 : ¬ @Eq Nat s.readSome.buffer_.length s.expected_length_ := hne
        omega
    · refine Or.inr ⟨p, rest, ?_, h2, h3⟩
      have : s.readLength.readSome.raw_messages = s.raw_messages := by
        simp [_MessageHandlerBase.readSome, readLength_raw_messages]
      rw [this, h1]

/-! ## Sequences of events -/

/-- A property that every event hands on holds after a run of events. -/
theorem run_invariant (sink : Sink) (fuel : Nat) (Inv : _MessageHandlerBase → Prop)
    (hread : ∀ (h : _MessageHandlerBase) (newBytes : QByteArray) (h1 : _MessageHandlerBase),
      Inv h →
      _MessageHandlerBase.DeviceReadyRead sink fuel
        { h with device_ := h.device_.arrive newBytes } = some h1 → Inv h1)
    (hclosed : ∀ h : _MessageHandlerBase, Inv h → Inv h.DeviceClosed)
    (hsend : ∀ (h : _MessageHandlerBase) (data : QByteArray), Inv h → Inv (h.WriteMessage data)) :
    ∀ (evs : List Event) (h h1 : _MessageHandlerBase), Inv h →
      _MessageHandlerBase.run sink fuel evs h = some h1 → Inv h1 := by
  intro evs
  induction evs with
  | nil =>
    intro h h1 hinv hr
    simp only [_MessageHandlerBase.run, Option.some.injEq] at hr
    rw [← hr]
    exact hinv
  | cons e es ih =>
    intro h h1 hinv hr
    simp only [_MessageHandlerBase.run] at hr
    cases hh : h.handle sink fuel e with
    | none => simp [hh] at hr
    | some h2 =>
      simp only [hh] at hr
      refine ih h2 h1 ?_ hr
      cases e with
      | readyRead newBytes => exact hread h newBytes h2 hinv hh
      | disconnected =>
        simp only [_MessageHandlerBase.handle, Option.some.injEq] at hh
        rw [← hh]
        exact hclosed h hinv
      | send data =>
        simp only [_MessageHandlerBase.handle, Option.some.injEq] at hh
        rw [← hh]
        exact hsend h data hinv

/-- The function `AbortAll` is called once for every `disconnected` event of a run and by
nothing else. -/
theorem run_abort_all_calls (sink : Sink) (fuel : Nat) :
    ∀ (evs : List Event) (h h1 : _MessageHandlerBase),
      _MessageHandlerBase.run sink fuel evs h = some h1 →
      h1.abort_all_calls = h.abort_all_calls + evs.count Event.disconnected := by
  intro evs
  induction evs with
  | nil =>
    intro h h1 hr
    simp only [_MessageHandlerBase.run, Option.some.injEq] at hr
    simp [← hr]
  | cons e es ih =>
    intro h h1 hr
    simp only [_MessageHandlerBase.run] at hr
    cases hh : h.handle sink fuel e with
    | none => simp [hh] at hr
    | some h2 =>
      simp only [hh] at hr
      have h3 := ih h2 h1 hr
      cases e with
      | readyRead newBytes =>
        have h4 := (DeviceReadyRead_abort_all_calls sink fuel _ h2 hh).1
        simp only [List.count_cons, h3, h4]
        simp
      | disconnected =>
        simp only [_MessageHandlerBase.handle, Option.some.injEq] at hh
        simp only [List.count_cons, h3, ← hh, _MessageHandlerBase.DeviceClosed]
        simp
        omega
      | send data =>
        simp only [_MessageHandlerBase.handle, Option.some.injEq] at hh
        simp only [List.count_cons, h3, ← hh, _MessageHandlerBase.WriteMessage]
        simp

/-- What `WriteMessage` leaves alone on the device: the read queue and the
open flag. -/
theorem WriteMessage_device_read_side (h : _MessageHandlerBase) (P : QByteArray) :
    (h.WriteMessage P).device_.readable = h.device_.readable ∧
    (h.WriteMessage P).device_.is_open = h.device_.is_open := by
  have hdev : ∀ d : QIODevice,
      (if h.flush_abstract_socket_ then d.flush
        else if h.flush_local_socket_ then d.flush else d).readable = d.readable ∧
      (if h.flush_abstract_socket_ then d.flush
        else if h.flush_local_socket_ then d.flush else d).is_open = d.is_open := by
    intro d
    split
    · exact ⟨rfl, rfl⟩
    · split <;> exact ⟨rfl, rfl⟩
  have hwr : ∀ (d : QIODevice) (bs : QByteArray),
      (d.write bs).readable = d.readable ∧ (d.write bs).is_open = d.is_open := by
    intro d bs
    unfold QIODevice.write
    split <;> exact ⟨rfl, rfl⟩
  simp only [_MessageHandlerBase.WriteMessage, (hdev _).1, (hdev _).2,
    QDataStream.write_quint32, QDataStream.writeRawData]
  split
  · exact hwr _ _
  · exact ⟨((hwr _ _).1).trans (hwr _ _).1, ((hwr _ _).2).trans (hwr _ _).2⟩

/-- Events that bring no new bytes to a handler with nothing to read (closed
events, writes, `readyRead` without bytes) always return and leave the parse
state and the record of sink calls as they are. -/
theorem run_no_new_bytes (sink : Sink) (fuel : Nat) :
    ∀ (evs : List Event) (h : _MessageHandlerBase),
      h.device_.bytesAvailable = 0 →
      (∀ e ∈ evs, ∀ b, e = Event.readyRead b → b = []) →
      ∃ h1, _MessageHandlerBase.run sink (fuel + 1) evs h = some h1 ∧
        h1.raw_messages = h.raw_messages ∧ h1.reading_protobuf_ = h.reading_protobuf_ ∧
        h1.expected_length_ = h.expected_length_ ∧ h1.buffer_ = h.buffer_ := by
  intro evs
  induction evs with
  | nil =>
    intro h _ _
    exact ⟨h, rfl, rfl, rfl, rfl, rfl⟩
  | cons e es ih =>
    intro h hav hev
    have hes : ∀ x ∈ es, ∀ b, x = Event.readyRead b → b = [] :=
      fun x hx => hev x (List.mem_cons_of_mem _ hx)
    cases e with
    | readyRead b =>
      have hb : b = [] := hev _ (List.mem_cons_self _ _) b rfl
      subst hb
      have hav1 : ({ h with device_ := h.device_.arrive [] } :
          _MessageHandlerBase).device_.bytesAvailable = 0 := by
        simpa [QIODevice.arrive, QIODevice.bytesAvailable] using hav
      obtain ⟨h1, hr, k1, k2, k3, k4⟩ := ih _ hav1 hes
      refine ⟨h1, ?_, k1, k2, k3, k4⟩
      simp only [_MessageHandlerBase.run, _MessageHandlerBase.handle]
      rw [DeviceReadyRead_idle sink fuel _ hav1]
      exact hr
    | disconnected =>
      obtain ⟨h1, hr, k1, k2, k3, k4⟩ := ih h.DeviceClosed hav hes
      exact ⟨h1, by simpa [_MessageHandlerBase.run, _MessageHandlerBase.handle] using hr,
        k1, k2, k3, k4⟩
    | send data =>
      have hav1 : (h.WriteMessage data).device_.bytesAvailable = 0 := by
        have := WriteMessage_device_read_side h data
        simpa [QIODevice.bytesAvailable, this.1, this.2] using hav
      obtain ⟨h1, hr, k1, k2, k3, k4⟩ := ih (h.WriteMessage data) hav1 hes
      exact ⟨h1, by simpa [_MessageHandlerBase.run, _MessageHandlerBase.handle] using hr,
        k1, k2, k3, k4⟩

/-! ## Fragmentation and short headers -/

/-- A reader that awaits a body and finds fewer bytes than are missing takes
them all into its buffer and returns. -/
theorem DeviceReadyRead_body_partial (sink : Sink) (fuel : Nat) (h : _MessageHandlerBase)
    (c : QByteArray)
    (hopen : h.device_.is_open = true) (hrd : h.reading_protobuf_ = true)
    (hexp : h.buffer_.length + c.length < h.expected_length_)
    (hq : h.device_.readable = c) :
    _MessageHandlerBase.DeviceReadyRead sink (fuel + 2) h =
      some { h with device_ := { h.device_ with readable := [] },
                    buffer_ := h.buffer_ ++ c } := by
  obtain ⟨dev, fa, fl, rd, el, buf, cl, raw, ab⟩ := h
  obtain ⟨k, r, w, o, f⟩ := dev
  simp only at hopen hrd hexp hq
  subst hopen hrd hq
  cases r with
  | nil => simp [_MessageHandlerBase.DeviceReadyRead, QIODevice.bytesAvailable]
  | cons x xs =>
    have hn : ((el : Int) - (buf.length : Int)).toNat = el - buf.length := by omega
    have hge : (x :: xs).length ≤ el - buf.length := by omega
    have hne : ¬ (buf.length + (xs.length + 1) = el) := by
      simp only [List.length_cons] at hexp
      omega
    simp [_MessageHandlerBase.DeviceReadyRead, _MessageHandlerBase.readLength,
      _MessageHandlerBase.readSome, QIODevice.bytesAvailable, QIODevice.read, hn,
      List.take_of_length_le hge, List.drop_of_length_le hge, hne]

/-- A reader that awaits a header and finds a whole length field and fewer body
bytes than it announces takes them into its buffer and returns, awaiting the
rest of the body. -/
theorem DeviceReadyRead_header_partial (sink : Sink) (fuel : Nat) (h : _MessageHandlerBase)
    (n : Nat) (c : QByteArray)
    (hopen : h.device_.is_open = true) (hrd : h.reading_protobuf_ = false)
    (hbuf : h.buffer_ = []) (hn : n < 2 ^ 32) (hc : c.length < n)
    (hq : h.device_.readable = encode_quint32 n ++ c) :
    _MessageHandlerBase.DeviceReadyRead sink (fuel + 2) h =
      some { h with device_ := { h.device_ with readable := [] },
                    reading_protobuf_ := true,
                    expected_length_ := n,
                    buffer_ := c } := by
  obtain ⟨dev, fa, fl, rd, el, buf, cl, raw, ab⟩ := h
  obtain ⟨k, r, w, o, f⟩ := dev
  simp only at hopen hrd hbuf hq
  subst hopen hrd hbuf hq
  have hh := read_quint32_encode
    { kind := k, readable := encode_quint32 n ++ c, written := w, is_open := true, flushes := f }
    n c rfl hn rfl
  have hge : c.length ≤ n := by omega
  have hne : ¬ (c.length = n) := by omega
  simp only [_MessageHandlerBase.DeviceReadyRead, _MessageHandlerBase.readLength,
    _MessageHandlerBase.readSome, QIODevice.bytesAvailable, hh]
  simp [QIODevice.read, encode_quint32_length, List.take_of_length_le hge,
    List.drop_of_length_le hge, hne]

theorem flatten_eq_nil_of_nonempty (cs : List QByteArray) (hne : ∀ c ∈ cs, c ≠ [])
    (hfl : cs.flatten = []) : cs = [] := by
  cases cs with
  | nil => rfl
  | cons c cs =>
    exfalso
    simp only [List.flatten_cons, List.append_eq_nil] at hfl
    exact hne c (List.mem_cons_self _ _) hfl.1

/-- The body of one frame, fed in non-empty chunks to a reader that awaits it:
the sink gets the payload once, when the last chunk is in. -/
theorem run_body_chunks (sink : Sink) (fuel : Nat) (P : QByteArray) :
    ∀ (chunks : List QByteArray) (h : _MessageHandlerBase),
      (∀ c ∈ chunks, c ≠ []) →
      h.device_.is_open = true → h.device_.readable = [] → h.reading_protobuf_ = true →
      h.expected_length_ = P.length → h.buffer_ ++ chunks.flatten = P →
      h.buffer_.length < P.length → sink h.raw_messages P = true →
      _MessageHandlerBase.run sink (fuel + 2) (chunks.map Event.readyRead) h =
        some { h with reading_protobuf_ := false, buffer_ := [],
                      raw_messages := h.raw_messages ++ [P] } := by
  intro chunks
  induction chunks with
  | nil =>
    intro h _ _ _ _ _ hP hlt _
    exfalso
    simp only [List.flatten_nil, List.append_nil] at hP
    rw [hP] at hlt
    exact Nat.lt_irrefl _ hlt
  | cons c cs ih =>
    intro h hne hopen hq hrd hexp hP hlt hacc
    obtain ⟨dev, fa, fl, rd, el, buf, cl, raw, ab⟩ := h
    obtain ⟨k, r, w, o, f⟩ := dev
    simp only at hopen hq hrd hexp hP hlt hacc
    subst hopen hq hrd hexp
    have hc : c ≠ [] := hne c (List.mem_cons_self _ _)
    have hcs : ∀ x ∈ cs, x ≠ [] := fun x hx => hne x (List.mem_cons_of_mem _ hx)
    have hlen : buf.length + c.length + cs.flatten.length = P.length := by
      rw [← hP]
      simp only [List.flatten_cons, List.length_append]
      omega
    simp only [List.map_cons, _MessageHandlerBase.run, _MessageHandlerBase.handle,
      QIODevice.arrive, List.nil_append]
    by_cases hfull : buf.length + c.length = P.length
    · have hnil : cs = [] :=
        flatten_eq_nil_of_nonempty cs hcs (List.length_eq_zero.mp (by omega))
      subst hnil
      simp only [List.flatten_cons, List.flatten_nil, List.append_nil] at hP
      have key := DeviceReadyRead_body sink (fuel + 1)
        { device_ := { kind := k, readable := c, written := w, is_open := true, flushes := f },
          flush_abstract_socket_ := fa, flush_local_socket_ := fl, reading_protobuf_ := true,
          expected_length_ := P.length, buffer_ := buf, is_device_closed_ := cl,
          raw_messages := raw, abort_all_calls := ab }
        c [] rfl rfl hfull (by simp) (by simpa using hc)
      simp only [hP, hacc, if_true] at key
      rw [key, DeviceReadyRead_idle]
      · simp [_MessageHandlerBase.run]
      · rfl
    · have hlt1 : buf.length + c.length < P.length := by omega
      have key := DeviceReadyRead_body_partial sink fuel
        { device_ := { kind := k, readable := c, written := w, is_open := true, flushes := f },
          flush_abstract_socket_ := fa, flush_local_socket_ := fl, reading_protobuf_ := true,
          expected_length_ := P.length, buffer_ := buf, is_device_closed_ := cl,
          raw_messages := raw, abort_all_calls := ab }
        c rfl rfl hlt1 rfl
      rw [key]
      simp only
      have step := ih
        { device_ := { kind := k, readable := [], written := w, is_open := true, flushes := f },
          flush_abstract_socket_ := fa, flush_local_socket_ := fl, reading_protobuf_ := true,
          expected_length_ := P.length, buffer_ := buf ++ c, is_device_closed_ := cl,
          raw_messages := raw, abort_all_calls := ab }
        hcs rfl rfl rfl rfl
        (by simpa [List.append_assoc] using hP)
        (by simpa using hlt1) hacc
      rw [step]

/-- Fragmentation with a whole header: the frame of a payload, split into
non-empty chunks of which the first holds at least the four length bytes and
fed with one `DeviceReadyRead` call per chunk to a reader that awaits a header
on an open device with an empty queue, gives what the feed in one call gives:
the sink gets the payload once and the reader awaits a header again. -/
theorem fragmentation_whole_header (sink : Sink) (fuel : Nat) (P c1 : QByteArray)
    (cs : List QByteArray) (h : _MessageHandlerBase)
    (hopen : h.device_.is_open = true) (hq : h.device_.readable = [])
    (hrd : h.reading_protobuf_ = false) (hbuf : h.buffer_ = [])
    (hlen : P.length < 2 ^ 32) (h4 : 4 ≤ c1.length) (hne : ∀ c ∈ cs, c ≠ [])
    (hsplit : c1 ++ cs.flatten = wireFrame P) (hacc : sink h.raw_messages P = true) :
    _MessageHandlerBase.run sink (fuel + 2) ((c1 :: cs).map Event.readyRead) h =
      some { h with expected_length_ := P.length, raw_messages := h.raw_messages ++ [P] } ∧
    _MessageHandlerBase.run sink (fuel + 2) [Event.readyRead (wireFrame P)] h =
      some { h with expected_length_ := P.length, raw_messages := h.raw_messages ++ [P] } := by
  obtain ⟨dev, fa, fl, rd, el, buf, cl, raw, ab⟩ := h
  obtain ⟨k, r, w, o, f⟩ := dev
  simp only at hopen hq hrd hbuf hacc
  subst hopen hq hrd hbuf
  have hone : _MessageHandlerBase.DeviceReadyRead sink (fuel + 2)
      { device_ := { kind := k, readable := wireFrame P, written := w, is_open := true,
                     flushes := f },
        flush_abstract_socket_ := fa, flush_local_socket_ := fl, reading_protobuf_ := false,
        expected_length_ := el, buffer_ := [], is_device_closed_ := cl,
        raw_messages := raw, abort_all_calls := ab } =
      some
      { device_ := { kind := k, readable := [], written := w, is_open := true, flushes := f },
        flush_abstract_socket_ := fa, flush_local_socket_ := fl, reading_protobuf_ := false,
        expected_length_ := P.length, buffer_ := [], is_device_closed_ := cl,
        raw_messages := raw ++ [P], abort_all_calls := ab } := by
    rw [DeviceReadyRead_frame sink (fuel + 1) _ P [] rfl rfl rfl hlen (by simp)]
    simp only [hacc, if_true]
    rw [DeviceReadyRead_idle]
    rfl
  constructor
  · -- the first chunk is the length field and the first bytes of the payload
    have htake : c1.take 4 = encode_quint32 P.length := by
      have e1 : (c1 ++ cs.flatten).take 4 = c1.take 4 := List.take_append_of_le_length h4
      have e2 : (wireFrame P).take 4 = encode_quint32 P.length :=
        List.take_left' (encode_quint32_length _)
      rw [← e1, hsplit, e2]
    have hdrop : c1.drop 4 ++ cs.flatten = P := by
      have e1 : (c1 ++ cs.flatten).drop 4 = c1.drop 4 ++ cs.flatten :=
        List.drop_append_of_le_length h4
      have e2 : (wireFrame P).drop 4 = P := List.drop_left' (encode_quint32_length _)
      rw [← e1, hsplit, e2]
    have hc1 : c1 = encode_quint32 P.length ++ c1.drop 4 := by
      rw [← htake, List.take_append_drop]
    have hl : (c1.drop 4).length + cs.flatten.length = P.length := by
      rw [← hdrop, List.length_append]
    simp only [List.map_cons, _MessageHandlerBase.run, _MessageHandlerBase.handle,
      QIODevice.arrive, List.nil_append]
    by_cases hfull : (c1.drop 4).length = P.length
    · have hnil : cs = [] :=
        flatten_eq_nil_of_nonempty cs hne (List.length_eq_zero.mp (by omega))
      subst hnil
      simp only [List.flatten_nil, List.append_nil] at hdrop hsplit
      rw [hsplit, hone]
      simp [_MessageHandlerBase.run]
    · have hlt : (c1.drop 4).length < P.length := by omega
      have key := DeviceReadyRead_header_partial sink fuel
        { device_ := { kind := k, readable := c1, written := w, is_open := true, flushes := f },
          flush_abstract_socket_ := fa, flush_local_socket_ := fl, reading_protobuf_ := false,
          expected_length_ := el, buffer_ := [], is_device_closed_ := cl,
          raw_messages := raw, abort_all_calls := ab }
        P.length (c1.drop 4) rfl rfl rfl hlen hlt hc1
      rw [key]
      simp only
      have step := run_body_chunks sink fuel P cs
        { device_ := { kind := k, readable := [], written := w, is_open := true, flushes := f },
          flush_abstract_socket_ := fa, flush_local_socket_ := fl, reading_protobuf_ := true,
          expected_length_ := P.length, buffer_ := c1.drop 4, is_device_closed_ := cl,
          raw_messages := raw, abort_all_calls := ab }
        hne rfl rfl rfl rfl hdrop hlt hacc
      rw [step]
  · simp only [_MessageHandlerBase.run, _MessageHandlerBase.handle, QIODevice.arrive,
      List.nil_append]
    rw [hone]


/-- C2, the code at the failing input: the eight bytes `00 00 00 04 50 49 4E 47`
are the frame of "PING"; read in one call they give the one frame "PING", but
fed as a chunk of three bytes and a chunk of five the sink is invoked once
with the empty payload (on the first chunk), and the reader then takes
`04 50 49 4E` for a length field and waits for 72370510 body bytes with
`47` in its buffer.  No frame "PING" is ever decoded. -/
theorem fragmentation_PING_3_5 (fuel : Nat) :
    [0x00, 0x00, 0x00] ++ [0x04, 0x50, 0x49, 0x4E, 0x47] = wireFrame PING ∧
    _MessageHandlerBase.run acceptAll (fuel + 2)
        [Event.readyRead [0x00, 0x00, 0x00, 0x04, 0x50, 0x49, 0x4E, 0x47]] (freshReader []) =
      some { freshReader [] with expected_length_ := 4, raw_messages := [PING] } ∧
    _MessageHandlerBase.run acceptAll (fuel + 2)
        [Event.readyRead [0x00, 0x00, 0x00], Event.readyRead [0x04, 0x50, 0x49, 0x4E, 0x47]]
        (freshReader []) =
      some { freshReader [] with
               reading_protobuf_ := true, expected_length_ := 72370510, buffer_ := [0x47],
               raw_messages := [[]] } :=
  ⟨by decide, rfl, rfl⟩

/-- C7, the code at the failing input: a fresh reader that finds only the two
bytes `00 00` invokes the sink at once, with the empty payload, and keeps
nothing of the two bytes; when the bytes `00 01 41` follow, they are taken for
another short header and the sink gets a second empty payload.  Read in one
call the same five bytes are one frame with the payload `41`. -/
theorem short_header_not_resumed (fuel : Nat) :
    _MessageHandlerBase.run acceptAll (fuel + 2) [Event.readyRead [0x00, 0x00]]
        (freshReader []) =
      some { freshReader [] with raw_messages := [[]] } ∧
    _MessageHandlerBase.run acceptAll (fuel + 2)
        [Event.readyRead [0x00, 0x00], Event.readyRead [0x00, 0x01, 0x41]] (freshReader []) =
      some { freshReader [] with raw_messages := [[], []] } ∧
    _MessageHandlerBase.run acceptAll (fuel + 2)
        [Event.readyRead [0x00, 0x00, 0x00, 0x01, 0x41]] (freshReader []) =
      some { freshReader [] with expected_length_ := 1, raw_messages := [[0x41]] } :=
  ⟨rfl, rfl, rfl⟩

/-! ## Rejection by the sink -/

/-- C6: when the sink rejects a completed payload `R`, `DeviceReadyRead` returns
with the device closed, `R` is the last payload the sink was given in that
call, and the bytes `rest` queued behind the frame of `R` are all still
unread, whatever they are.  First part: the call starts on a reader that
awaits a header, reads the frames of the payloads `Ps`, which the sink
accepts, and then the frame of `R`.  Second part: the call starts on a reader
that awaits a body and finds its missing bytes `c`. -/
theorem malformed_rejection (sink : Sink) (fuel : Nat) :
    (∀ (h : _MessageHandlerBase) (Ps : List QByteArray) (R rest : QByteArray),
      h.device_.is_open = true → h.reading_protobuf_ = false → h.buffer_ = [] →
      (∀ P ∈ Ps, P.length < 2 ^ 32) → R.length < 2 ^ 32 →
      h.device_.readable = wireFrames Ps ++ (wireFrame R ++ rest) →
      (∀ pre P post, Ps = pre ++ P :: post → sink (h.raw_messages ++ pre) P = true) →
      sink (h.raw_messages ++ Ps) R = false →
      _MessageHandlerBase.DeviceReadyRead sink (Ps.length + (fuel + 1)) h =
        some { h with device_ := { h.device_ with readable := rest, is_open := false },
                      expected_length_ := R.length,
                      reading_protobuf_ := true,
                      buffer_ := R,
                      raw_messages := h.raw_messages ++ Ps ++ [R] }) ∧
    (∀ (h : _MessageHandlerBase) (c rest : QByteArray),
      h.device_.is_open = true → h.reading_protobuf_ = true →
      h.buffer_.length + c.length = h.expected_length_ →
      h.device_.readable = c ++ rest → c ++ rest ≠ [] →
      sink h.raw_messages (h.buffer_ ++ c) = false →
      _MessageHandlerBase.DeviceReadyRead sink (fuel + 1) h =
        some { h with device_ := { h.device_ with readable := rest, is_open := false },
                      buffer_ := h.buffer_ ++ c,
                      raw_messages := h.raw_messages ++ [h.buffer_ ++ c] }) := by
  constructor
  · intro h Ps R rest hopen hrd hbuf hlen hR hq hacc hrej
    rw [DeviceReadyRead_frames sink (fuel + 1) Ps h (wireFrame R ++ rest) hopen hrd hbuf hlen
      hq hacc]
    have key := DeviceReadyRead_frame sink fuel
      { h with device_ := { h.device_ with readable := wireFrame R ++ rest },
               expected_length_ := Ps.foldl (fun _ P => P.length) h.expected_length_,
               raw_messages := h.raw_messages ++ Ps }
      R rest hopen hrd hbuf hR rfl
    have hrej1 : ¬ sink (h.raw_messages ++ Ps) R = true := by simp [hrej]
    rw [key, if_neg hrej1]
  · intro h c rest hopen hrd hexp hq hne hrej
    rw [DeviceReadyRead_body sink fuel h c rest hopen hrd hexp hq hne]
    have hrej1 : ¬ sink h.raw_messages (h.buffer_ ++ c) = true := by simp [hrej]
    rw [if_neg hrej1]

/-- C6 at concrete inputs.  A fresh reader finds the frames of the empty
payload and of "PING" and then the frame of the payload `41`; the sink accepts
the empty payload only.  "PING" is the last payload the sink gets, the device
is closed and the five bytes of the third frame are unread.  The same holds
for the reader that had one byte of "PING" in its buffer. -/
theorem malformed_rejection_witness :
    _MessageHandlerBase.DeviceReadyRead (fun _ p => decide (p = [])) 2
        (freshReader ([0, 0, 0, 0] ++ (wireFrame PING ++ wireFrame [0x41]))) =
      some { readerRejectedPING (wireFrame [0x41]) with raw_messages := [[], PING] } ∧
    _MessageHandlerBase.DeviceReadyRead rejectAll 1
        { readerMidPING with
            device_ := deviceWith DeviceKind.localSocket
              ([0x49, 0x4E, 0x47] ++ wireFrame [0x41]) } =
      some { readerRejectedPING (wireFrame [0x41]) with raw_messages := [PING] } :=
  ⟨(malformed_rejection (fun _ p => decide (p = [])) 0).1
      (freshReader ([0, 0, 0, 0] ++ (wireFrame PING ++ wireFrame [0x41])))
      [[]] PING (wireFrame [0x41]) rfl rfl rfl (by decide) (by decide) rfl
      (by
        intro pre P post hp
        have hP : P ∈ [([] : QByteArray)] := by rw [hp]; simp
        simp only [List.mem_singleton] at hP
        simp [hP])
      (by decide),
   (malformed_rejection rejectAll 0).2
      { readerMidPING with
          device_ := deviceWith DeviceKind.localSocket
            ([0x49, 0x4E, 0x47] ++ wireFrame [0x41]) }
      [0x49, 0x4E, 0x47] (wireFrame [0x41]) rfl rfl rfl rfl (by decide) rfl⟩

/-! ## Oversized payloads -/

/-- C8 as stated fails: the payload of 2^32 zero bytes is longer than 2^32 - 1,
and `WriteMessage` writes the four bytes `00 00 00 00` for it (the frame of
the empty payload), reports nothing and leaves the device open. -/
theorem oversized_payload_is_written :
    2 ^ 32 - 1 < payload_2_32.length ∧
    ((freshReader []).WriteMessage payload_2_32).device_.written = [0, 0, 0, 0] ∧
    ((freshReader []).WriteMessage payload_2_32).device_.written ≠ [] ∧
    ((freshReader []).WriteMessage payload_2_32).device_.is_open = true := by
  have hw : ((freshReader []).WriteMessage payload_2_32).device_.written = [0, 0, 0, 0] :=
    WriteMessage_payload_2_32 DeviceKind.localSocket
  refine ⟨?_, hw, ?_, ?_⟩
  · rw [payload_2_32_length]; decide
  · rw [hw]; decide
  · simp only [_MessageHandlerBase.WriteMessage, static_cast_int_2_32, encode_quint32_2_32,
      QDataStream.write_quint32, QDataStream.writeRawData]
    rfl

/-- C8 as amended: `WriteMessage` has no size check and no failure.  For every
payload longer than 2^32 - 1 bytes, on an open device, it writes the four-byte
big-endian number `len mod 2^32` as the length field, then some first bytes
of the payload, no more than that number, and it leaves the device open and
the parse state, the closed flag and the call records untouched. -/
theorem WriteMessage_oversized (h : _MessageHandlerBase) (P : QByteArray)
    (hopen : h.device_.is_open = true) (hlen : 2 ^ 32 - 1 < P.length) :
    (∃ body, (h.WriteMessage P).device_.written
        = h.device_.written ++ encode_quint32 (P.length % 2 ^ 32) ++ body ∧
      body <+: P ∧ body.length ≤ P.length % 2 ^ 32 ∧ body.length < P.length) ∧
    (h.WriteMessage P).device_.is_open = true ∧
    (h.WriteMessage P).device_.readable = h.device_.readable ∧
    (h.WriteMessage P).reading_protobuf_ = h.reading_protobuf_ ∧
    (h.WriteMessage P).expected_length_ = h.expected_length_ ∧
    (h.WriteMessage P).buffer_ = h.buffer_ ∧
    (h.WriteMessage P).is_device_closed_ = h.is_device_closed_ ∧
    (h.WriteMessage P).raw_messages = h.raw_messages ∧
    (h.WriteMessage P).abort_all_calls = h.abort_all_calls := by
  have hmod : P.length % 2 ^ 32 < 2 ^ 32 := Nat.mod_lt _ (by decide)
  have hdev : ∀ d : QIODevice,
      (if h.flush_abstract_socket_ then d.flush
        else if h.flush_local_socket_ then d.flush else d).written = d.written ∧
      (if h.flush_abstract_socket_ then d.flush
        else if h.flush_local_socket_ then d.flush else d).is_open = d.is_open ∧
      (if h.flush_abstract_socket_ then d.flush
        else if h.flush_local_socket_ then d.flush else d).readable = d.readable := by
    intro d
    split
    · exact ⟨rfl, rfl, rfl⟩
    · split <;> exact ⟨rfl, rfl, rfl⟩
  refine ⟨?_, ?_, ?_, rfl, rfl, rfl, rfl, rfl, rfl⟩
  · simp only [_MessageHandlerBase.WriteMessage, (hdev _).1, QDataStream.write_quint32,
      QDataStream.writeRawData, quint32, QIODevice.write, hopen, if_true]
    by_cases hneg : static_cast_int P.length < 0
    · refine ⟨[], ?_, List.nil_prefix, Nat.zero_le _, by simp only [List.length_nil]; omega⟩
      simp [hneg]
    · refine ⟨P.take (static_cast_int P.length).toNat, ?_, List.take_prefix _ _, ?_, ?_⟩
      · simp [hneg]
      · have : (static_cast_int P.length).toNat ≤ P.length % 2 ^ 32 := by
          unfold static_cast_int at hneg ⊢
          split
          · simp
          · rename_i hge
            rw [if_neg hge] at hneg
            omega
        simp only [List.length_take]
        omega
      · have : (static_cast_int P.length).toNat ≤ P.length % 2 ^ 32 := by
          unfold static_cast_int at hneg ⊢
          split
          · simp
          · rename_i hge
            rw [if_neg hge] at hneg
            omega
        simp only [List.length_take]
        omega
  · simp only [_MessageHandlerBase.WriteMessage, (hdev _).2.1, QDataStream.write_quint32,
      QDataStream.writeRawData, QIODevice.write, hopen, if_true]
    split <;> simp [hopen]
  · simp only [_MessageHandlerBase.WriteMessage, (hdev _).2.2, QDataStream.write_quint32,
      QDataStream.writeRawData, QIODevice.write, hopen, if_true]
    split <;> simp

/-- C8 at the payload of 2^32 zero bytes, written by a fresh handler. -/
theorem WriteMessage_oversized_witness :
    (freshReader []).device_.is_open = true ∧ 2 ^ 32 - 1 < payload_2_32.length ∧
    (∃ body, ((freshReader []).WriteMessage payload_2_32).device_.written
        = (freshReader []).device_.written ++ encode_quint32 (payload_2_32.length % 2 ^ 32)
          ++ body ∧
      body <+: payload_2_32 ∧ body.length ≤ payload_2_32.length % 2 ^ 32 ∧
      body.length < payload_2_32.length) ∧
    ((freshReader []).WriteMessage payload_2_32).device_.is_open = true :=
  ⟨rfl, by rw [payload_2_32_length]; decide,
    (WriteMessage_oversized (freshReader []) payload_2_32 rfl
      (by rw [payload_2_32_length]; decide)).1,
    (WriteMessage_oversized (freshReader []) payload_2_32 rfl
      (by rw [payload_2_32_length]; decide)).2.1⟩

/-! ## The closed notification -/

/-- C9: `DeviceClosed` on a reader that awaits a body and has fewer bytes than
expected in its buffer calls `AbortAll` exactly once, does not invoke the
sink and leaves the parse state as it is.  Afterwards, as long as no new
bytes arrive (the queue was empty at the close), every sequence of events
returns without any call of the sink.  And whatever events follow, new bytes
included, the sink never gets the partial data as a payload: either it was
not invoked again, or the first payload it got since has the full expected
length and begins with the bytes of the buffer, so it differs from the
partial data. -/
theorem partial_frame_close (sink : Sink) (fuel : Nat) (h : _MessageHandlerBase)
    (hrd : h.reading_protobuf_ = true) (hlt : h.buffer_.length < h.expected_length_) :
    h.DeviceClosed.abort_all_calls = h.abort_all_calls + 1 ∧
    h.DeviceClosed.raw_messages = h.raw_messages ∧
    h.DeviceClosed.is_device_closed_ = true ∧
    h.DeviceClosed.reading_protobuf_ = true ∧
    h.DeviceClosed.expected_length_ = h.expected_length_ ∧
    h.DeviceClosed.buffer_ = h.buffer_ ∧
    (h.device_.bytesAvailable = 0 →
      ∀ evs : List Event, (∀ e ∈ evs, ∀ b, e = Event.readyRead b → b = []) →
      ∃ h1, _MessageHandlerBase.run sink (fuel + 1) evs h.DeviceClosed = some h1 ∧
        h1.raw_messages = h.raw_messages ∧ h1.buffer_ = h.buffer_) ∧
    (∀ (evs : List Event) (h1 : _MessageHandlerBase),
      _MessageHandlerBase.run sink fuel evs h.DeviceClosed = some h1 →
      (h1.raw_messages = h.raw_messages ∧ h1.buffer_.length < h.expected_length_) ∨
      (∃ p rest, h1.raw_messages = h.raw_messages ++ p :: rest ∧
        p.length = h.expected_length_ ∧ h.buffer_ <+: p ∧ p ≠ h.buffer_)) := by
  refine ⟨rfl, rfl, rfl, hrd, rfl, rfl, ?_, ?_⟩
  · intro hav evs hev
    obtain ⟨h1, hr, k1, _, _, k4⟩ := run_no_new_bytes sink fuel evs h.DeviceClosed hav hev
    exact ⟨h1, hr, k1, k4⟩
  · intro evs h1 hr
    have key := run_invariant sink fuel
      (fun s => (s.raw_messages = h.raw_messages ∧ s.reading_protobuf_ = true ∧
          s.expected_length_ = h.expected_length_ ∧ h.buffer_ <+: s.buffer_ ∧
          s.buffer_.length < h.expected_length_) ∨
        (∃ (p : QByteArray) (rest : List QByteArray),
          s.raw_messages = h.raw_messages ++ p :: rest ∧
          p.length = h.expected_length_ ∧ h.buffer_ <+: p))
      (fun s newBytes s1 hs hs1 =>
        DeviceReadyRead_partial sink h.buffer_ h.expected_length_ h.raw_messages fuel
          { s with device_ := s.device_.arrive newBytes } s1 hs hs1)
      (fun s hs => hs)
      (fun s data hs => hs)
      evs h.DeviceClosed h1
      (Or.inl ⟨rfl, hrd, rfl, List.prefix_refl _, hlt⟩) hr
    rcases key with ⟨k1, _, _, _, k5⟩ | ⟨p, rest, k1, k2, k3⟩
    · exact Or.inl ⟨k1, k5⟩
    · refine Or.inr ⟨p, rest, k1, k2, k3, ?_⟩
      intro hEq
      rw [hEq] at k2
      omega

/-- C9 at the reader that waits for the last three bytes of "PING" (the state a
fresh reader is in after the five bytes `00 00 00 04 50`). -/
theorem partial_frame_close_witness :
    _MessageHandlerBase.run acceptAll 2 [Event.readyRead [0x00, 0x00, 0x00, 0x04, 0x50]]
      (freshReader []) = some readerMidPING ∧
    readerMidPING.reading_protobuf_ = true ∧
    readerMidPING.buffer_.length < readerMidPING.expected_length_ ∧
    readerMidPING.DeviceClosed.abort_all_calls = readerMidPING.abort_all_calls + 1 ∧
    readerMidPING.DeviceClosed.raw_messages = readerMidPING.raw_messages :=
  ⟨rfl, rfl, by decide,
    (partial_frame_close acceptAll 2 readerMidPING rfl (by decide)).1,
    (partial_frame_close acceptAll 2 readerMidPING rfl (by decide)).2.1⟩

/-- C10 as stated fails: `DeviceClosed` on a handler that is closed already
(`is_device_closed_` is true after the first call) calls `AbortAll` again, so
two closed events give two notifications. -/
theorem second_DeviceClosed_aborts_again :
    (freshReader []).DeviceClosed.is_device_closed_ = true ∧
    (freshReader []).DeviceClosed.abort_all_calls = 1 ∧
    (freshReader []).DeviceClosed.DeviceClosed.abort_all_calls = 2 ∧
    ∃ h1, _MessageHandlerBase.run acceptAll 1 [Event.disconnected, Event.disconnected]
        (freshReader []) = some h1 ∧ h1.abort_all_calls = 2 :=
  ⟨rfl, rfl, rfl, _, rfl, rfl⟩

/-- C10 as amended: over every sequence of events delivered to one handler
(readable events with any bytes, sink answers of any kind, closed events,
writes), `AbortAll` is called once for each closed event and by nothing
else: the number of notifications is the number of closed events, and the
handler is marked closed as soon as there was one. -/
theorem AbortAll_once_per_disconnected (sink : Sink) (fuel : Nat) (evs : List Event)
    (h h1 : _MessageHandlerBase)
    (hr : _MessageHandlerBase.run sink fuel evs h = some h1) :
    h1.abort_all_calls = h.abort_all_calls + evs.count Event.disconnected ∧
    (Event.disconnected ∈ evs → h1.is_device_closed_ = true) ∧
    (∀ s : _MessageHandlerBase, s.DeviceClosed.abort_all_calls = s.abort_all_calls + 1) := by
  refine ⟨run_abort_all_calls sink fuel evs h h1 hr, ?_, fun _ => rfl⟩
  intro hmem
  obtain ⟨pre, post, rfl⟩ := List.append_of_mem hmem
  clear hmem
  induction pre generalizing h with
  | nil =>
    simp only [List.nil_append, _MessageHandlerBase.run, _MessageHandlerBase.handle] at hr
    exact run_invariant sink fuel (fun s => s.is_device_closed_ = true)
      (fun s newBytes s1 hs hs1 =>
        (DeviceReadyRead_abort_all_calls sink fuel _ s1 hs1).2.trans hs)
      (fun s _ => rfl) (fun s data hs => hs) post _ h1 rfl hr
  | cons e es ih =>
    simp only [List.cons_append, _MessageHandlerBase.run] at hr
    cases hh : h.handle sink fuel e with
    | none => simp [hh] at hr
    | some h2 =>
      simp only [hh] at hr
      exact ih h2 hr

/-- C10 at a sink rejection followed by the closed event of the transport: one
notification in total. -/
theorem AbortAll_once_per_disconnected_witness :
    _MessageHandlerBase.run rejectAll 1 [Event.readyRead (wireFrame PING), Event.disconnected]
        (freshReader []) =
      some { readerRejectedPING [] with is_device_closed_ := true, abort_all_calls := 1 } ∧
    (1 : Nat) = (freshReader []).abort_all_calls
      + [Event.readyRead (wireFrame PING), Event.disconnected].count Event.disconnected :=
  ⟨rfl,
    (AbortAll_once_per_disconnected rejectAll 1
      [Event.readyRead (wireFrame PING), Event.disconnected] (freshReader [])
      { readerRejectedPING [] with is_device_closed_ := true, abort_all_calls := 1 } rfl).1⟩

/-! ## The buffer bound and termination -/

/-- The buffer bound is handed on by every loop iteration: a reader that awaits
a body has at most `expected_length_` bytes in its buffer, a reader that
awaits a header has an empty buffer. -/
theorem DeviceReadyRead_buffer_bound (sink : Sink) (fuel : Nat) (h h1 : _MessageHandlerBase)
    (hinv : (h.reading_protobuf_ = true → h.buffer_.length ≤ h.expected_length_) ∧
      (h.reading_protobuf_ = false → h.buffer_ = []))
    (hr : _MessageHandlerBase.DeviceReadyRead sink fuel h = some h1) :
    (h1.reading_protobuf_ = true → h1.buffer_.length ≤ h1.expected_length_) ∧
      (h1.reading_protobuf_ = false → h1.buffer_ = []) := by
  have hstep : ∀ s : _MessageHandlerBase,
      ((s.reading_protobuf_ = true → s.buffer_.length ≤ s.expected_length_) ∧
        (s.reading_protobuf_ = false → s.buffer_ = [])) →
      s.readLength.readSome.reading_protobuf_ = true ∧
        s.readLength.readSome.buffer_.length ≤ s.readLength.readSome.expected_length_ := by
    intro s hs
    have h1 : s.readLength.reading_protobuf_ = true := by
      unfold _MessageHandlerBase.readLength
      cases hrd : s.reading_protobuf_ <;> simp [hrd]
    have h2 : s.readLength.buffer_.length ≤ s.readLength.expected_length_ := by
      unfold _MessageHandlerBase.readLength
      cases hrd : s.reading_protobuf_
      · simp [hs.2 hrd]
      · simpa using hs.1 hrd
    exact ⟨h1, readSome_buffer_length_le _ h2⟩
  refine DeviceReadyRead_invariant sink
    (fun s => (s.reading_protobuf_ = true → s.buffer_.length ≤ s.expected_length_) ∧
      (s.reading_protobuf_ = false → s.buffer_ = [])) ?_ ?_ ?_ fuel h h1 hinv hr
  · intro s hs _ _ _
    have := hstep s hs
    exact ⟨fun _ => this.2, fun hf => by
      have : s.readLength.readSome.reading_protobuf_ = false := hf
      simp_all⟩
  · intro s _ _ _ _
    exact ⟨fun hf => by simp [_MessageHandlerBase.clearBuffer] at hf, fun _ => rfl⟩
  · intro s hs _ _
    have := hstep s hs
    exact ⟨fun _ => this.2, fun hf => by simp_all⟩

theorem read_quint32_device (d : QIODevice) :
    (QDataStream.read_quint32 d).2 = (d.read 4).2 := by
  unfold QDataStream.read_quint32
  split <;> simp_all

/-- What one loop iteration reads: it leaves no more bytes on the device than
it found, fewer when it had to read a length field and fewer when it ends
with an incomplete message; the reader then awaits a body within the buffer
bound. -/
theorem iteration_reads (h : _MessageHandlerBase)
    (hinv : (h.reading_protobuf_ = true → h.buffer_.length ≤ h.expected_length_) ∧
      (h.reading_protobuf_ = false → h.buffer_ = []))
    (hav : 0 < h.device_.bytesAvailable) :
    h.readLength.readSome.device_.bytesAvailable ≤ h.device_.bytesAvailable ∧
    (h.reading_protobuf_ = false →
      h.readLength.readSome.device_.bytesAvailable < h.device_.bytesAvailable) ∧
    (h.readLength.readSome.buffer_.length ≠ h.readLength.readSome.expected_length_ →
      h.readLength.readSome.device_.bytesAvailable < h.device_.bytesAvailable) ∧
    h.readLength.readSome.reading_protobuf_ = true ∧
    h.readLength.readSome.buffer_.length ≤ h.readLength.readSome.expected_length_ := by
  obtain ⟨dev, fa, fl, rd, el, buf, cl, raw, ab⟩ := h
  obtain ⟨k, r, w, o, f⟩ := dev
  simp only at hinv
  cases o with
  | false => simp [QIODevice.bytesAvailable] at hav
  | true =>
    simp only [QIODevice.bytesAvailable, if_true] at hav
    cases rd with
    | true =>
      have hle : buf.length ≤ el := hinv.1 rfl
      simp only [_MessageHandlerBase.readLength, _MessageHandlerBase.readSome,
        QIODevice.read, QIODevice.bytesAvailable, Bool.not_true, Bool.false_eq_true, if_false,
        if_true, List.length_drop, List.length_append, List.length_take]
      refine ⟨by omega, by simp, ?_, trivial, by omega⟩
      intro hne
      omega
    | false =>
      have hb : buf = [] := hinv.2 rfl
      subst hb
      simp only [_MessageHandlerBase.readLength, _MessageHandlerBase.readSome,
        read_quint32_device, QIODevice.read, QIODevice.bytesAvailable, Bool.not_false, if_true,
        List.length_drop, List.length_append, List.length_take, List.length_nil]
      refine ⟨by omega, fun _ => by omega, fun _ => by omega, trivial, by omega⟩

theorem WriteMessage_parse_state (h : _MessageHandlerBase) (data : QByteArray) :
    (h.WriteMessage data).reading_protobuf_ = h.reading_protobuf_ ∧
    (h.WriteMessage data).expected_length_ = h.expected_length_ ∧
    (h.WriteMessage data).buffer_ = h.buffer_ ∧
    (h.WriteMessage data).raw_messages = h.raw_messages :=
  ⟨rfl, rfl, rfl, rfl⟩

/-- The buffer bound holds in every reachable state. -/
theorem Reachable_buffer_bound (sink : Sink) (h : _MessageHandlerBase)
    (hreach : Reachable sink h) :
    (h.reading_protobuf_ = true → h.buffer_.length ≤ h.expected_length_) ∧
      (h.reading_protobuf_ = false → h.buffer_ = []) := by
  induction hreach with
  | create device => exact ⟨fun hf => by simp [_MessageHandlerBase.create] at hf, fun _ => rfl⟩
  | arrive s newBytes _ ih => exact ih
  | closed s _ ih => exact ih
  | send s data _ ih => exact ih
  | lengthRead s _ _ ih =>
    unfold _MessageHandlerBase.readLength
    cases hrd : s.reading_protobuf_
    · simp [ih.2 hrd]
    · simpa [hrd] using ih
  | rejected s _ hav _ _ ih =>
    have := iteration_reads s ih hav
    exact ⟨fun _ => this.2.2.2.2, fun hf => by
      have h1 : s.readLength.readSome.reading_protobuf_ = false := hf
      rw [this.2.2.2.1] at h1
      exact absurd h1 (by decide)⟩
  | accepted s _ _ _ _ _ =>
    exact ⟨fun hf => by simp [_MessageHandlerBase.clearBuffer] at hf, fun _ => rfl⟩
  | incomplete s _ hav _ ih =>
    have := iteration_reads s ih hav
    exact ⟨fun _ => this.2.2.2.2, fun hf => by
      rw [this.2.2.2.1] at hf
      exact absurd hf (by decide)⟩

/-- What `DeviceReadyRead` returns from a reachable state is reachable. -/
theorem DeviceReadyRead_reachable (sink : Sink) (fuel : Nat) (h h1 : _MessageHandlerBase)
    (hreach : Reachable sink h)
    (hr : _MessageHandlerBase.DeviceReadyRead sink fuel h = some h1) :
    Reachable sink h1 :=
  DeviceReadyRead_invariant sink (Reachable sink)
    (fun s hs hav hfull hrej => Reachable.rejected s hs hav hfull hrej)
    (fun s hs hav hfull hacc => Reachable.accepted s hs hav hfull hacc)
    (fun s hs hav hne => Reachable.incomplete s hs hav hne)
    fuel h h1 hreach hr

/-- What a run of events leads to from a reachable state is reachable. -/
theorem run_reachable (sink : Sink) (fuel : Nat) (evs : List Event)
    (h h1 : _MessageHandlerBase) (hreach : Reachable sink h)
    (hr : _MessageHandlerBase.run sink fuel evs h = some h1) :
    Reachable sink h1 :=
  run_invariant sink fuel (Reachable sink)
    (fun s newBytes s1 hs hs1 =>
      DeviceReadyRead_reachable sink fuel _ s1 (Reachable.arrive s newBytes hs) hs1)
    (fun s hs => Reachable.closed s hs)
    (fun s data hs => Reachable.send s data hs)
    evs h h1 hreach hr

/-- Within the buffer bound the loop ends: a fuel above twice the number of
available bytes, plus one for a reader that awaits a body, is enough. -/
theorem DeviceReadyRead_returns (sink : Sink) :
    ∀ (fuel : Nat) (h : _MessageHandlerBase),
      ((h.reading_protobuf_ = true → h.buffer_.length ≤ h.expected_length_) ∧
        (h.reading_protobuf_ = false → h.buffer_ = [])) →
      2 * h.device_.bytesAvailable + (if h.reading_protobuf_ then 1 else 0) < fuel →
      ∃ h1, _MessageHandlerBase.DeviceReadyRead sink fuel h = some h1 := by
  intro fuel
  induction fuel with
  | zero =>
    intro h _ hlt
    exact absurd hlt (Nat.not_lt_zero _)
  | succ n ih =>
    intro h hinv hlt
    simp only [_MessageHandlerBase.DeviceReadyRead]
    by_cases hav : 0 < h.device_.bytesAvailable
    · rw [if_pos hav]
      have hit := iteration_reads h hinv hav
      by_cases hfull : h.readLength.readSome.buffer_.length
          = h.readLength.readSome.expected_length_
      · rw [if_pos hfull]
        cases hs : sink h.readLength.readSome.raw_messages h.readLength.readSome.buffer_
        · exact ⟨h.readLength.readSome.recordCall.closeDevice, by simp⟩
        · simp only [Bool.not_true, Bool.false_eq_true, if_false]
          apply ih
          · exact ⟨fun hf => by simp [_MessageHandlerBase.clearBuffer] at hf, fun _ => rfl⟩
          · have e1 : h.readLength.readSome.recordCall.clearBuffer.device_.bytesAvailable
                = h.readLength.readSome.device_.bytesAvailable := rfl
            have e2 : h.readLength.readSome.recordCall.clearBuffer.reading_protobuf_ = false :=
              rfl
            rw [e1, e2]
            simp only [Bool.false_eq_true, if_false]
            cases hrd : h.reading_protobuf_
            · have := hit.2.1 hrd
              rw [hrd] at hlt
              simp only [Bool.false_eq_true, if_false] at hlt
              omega
            · rw [hrd] at hlt
              simp only [if_true] at hlt
              have := hit.1
              omega
      · rw [if_neg hfull]
        apply ih
        · exact ⟨fun _ => hit.2.2.2.2, fun hf => by
            rw [hit.2.2.2.1] at hf
            exact absurd hf (by decide)⟩
        · rw [hit.2.2.2.1]
          simp only [if_true]
          have := hit.2.2.1 hfull
          have hge : 2 * h.device_.bytesAvailable < n + 1 := by
            have : 2 * h.device_.bytesAvailable
                ≤ 2 * h.device_.bytesAvailable + (if h.reading_protobuf_ then 1 else 0) :=
              Nat.le_add_right _ _
            omega
          omega
    · rw [if_neg hav]
      exact ⟨h, rfl⟩

/-- C13: in every state reachable from a fresh reader (by `DeviceReadyRead`
calls on any bytes in any chunking with any sink answers, by `DeviceClosed`
calls and by writes, the states inside the read loop included) the buffer
holds at most `expected_length_` bytes while the reader awaits a body and is
empty while it awaits a header, so the read size
`expected_length_ - buffer_.size()` is not negative. -/
theorem buffer_bound_invariant (sink : Sink) (h : _MessageHandlerBase)
    (hreach : Reachable sink h ∨
      ∃ (fuel : Nat) (evs : List Event) (device : QIODevice),
        _MessageHandlerBase.run sink fuel evs (_MessageHandlerBase.create device) = some h) :
    (h.reading_protobuf_ = true → h.buffer_.length ≤ h.expected_length_) ∧
    (h.reading_protobuf_ = false → h.buffer_ = []) ∧
    0 ≤ (h.expected_length_ : Int) - (h.buffer_.length : Int) := by
  have hr : Reachable sink h := by
    rcases hreach with hr | ⟨fuel, evs, device, hrun⟩
    · exact hr
    · exact run_reachable sink fuel evs _ h (Reachable.create device) hrun
  have hb := Reachable_buffer_bound sink h hr
  refine ⟨hb.1, hb.2, ?_⟩
  cases hrd : h.reading_protobuf_
  · rw [hb.2 hrd]
    simp
  · have hle : h.buffer_.length ≤ (h.expected_length_ : Nat) := hb.1 hrd
    omega

/-- C13 at the reader that waits for the last three bytes of "PING". -/
theorem buffer_bound_invariant_witness :
    (readerMidPING.reading_protobuf_ = true →
      readerMidPING.buffer_.length ≤ readerMidPING.expected_length_) ∧
    (readerMidPING.reading_protobuf_ = false → readerMidPING.buffer_ = []) ∧
    0 ≤ (readerMidPING.expected_length_ : Int) - (readerMidPING.buffer_.length : Int) :=
  buffer_bound_invariant acceptAll readerMidPING
    (Or.inr ⟨2, [Event.readyRead [0x00, 0x00, 0x00, 0x04, 0x50]],
      deviceWith DeviceKind.localSocket [], rfl⟩)

/-- C17: from every reachable reader state, with any finite queue of available
bytes and any sink, `DeviceReadyRead` returns within `2 * bytesAvailable + 2`
loop iterations.  An iteration that finds bytes leaves fewer bytes on the
device or ends with a complete message (the sink is asked: it rejects and the
call returns, or it accepts and the reader awaits a header); an iteration of a
reader that awaits a header always leaves fewer bytes. -/
theorem DeviceReadyRead_terminates (sink : Sink) (h : _MessageHandlerBase) (fuel : Nat)
    (hreach : Reachable sink h ∨
      ∃ (fuel0 : Nat) (evs : List Event) (device : QIODevice),
        _MessageHandlerBase.run sink fuel0 evs (_MessageHandlerBase.create device) = some h)
    (hfuel : 2 * h.device_.bytesAvailable + 2 ≤ fuel) :
    (∃ h1, _MessageHandlerBase.DeviceReadyRead sink fuel h = some h1) ∧
    (0 < h.device_.bytesAvailable →
      h.readLength.readSome.device_.bytesAvailable < h.device_.bytesAvailable ∨
      h.readLength.readSome.buffer_.length = h.readLength.readSome.expected_length_) ∧
    (0 < h.device_.bytesAvailable → h.reading_protobuf_ = false →
      h.readLength.readSome.device_.bytesAvailable < h.device_.bytesAvailable) := by
  have hr : Reachable sink h := by
    rcases hreach with hr | ⟨fuel0, evs, device, hrun⟩
    · exact hr
    · exact run_reachable sink fuel0 evs _ h (Reachable.create device) hrun
  have hb := Reachable_buffer_bound sink h hr
  refine ⟨?_, ?_, ?_⟩
  · apply DeviceReadyRead_returns sink fuel h hb
    have : (if h.reading_protobuf_ = true then 1 else 0) ≤ 1 := by split <;> omega
    omega
  · intro hav
    by_cases hfull : h.readLength.readSome.buffer_.length
        = h.readLength.readSome.expected_length_
    · exact Or.inr hfull
    · exact Or.inl ((iteration_reads h hb hav).2.2.1 hfull)
  · intro hav hrd
    exact (iteration_reads h hb hav).2.1 hrd

/-- Outside the buffer bound the loop need not end: a reader that awaits a body
of 0 bytes with one byte in its buffer (a state no run leads to) reads
nothing, completes nothing and finds the same byte available for ever, so no
amount of fuel is enough. -/
theorem DeviceReadyRead_spins_outside_bound (sink : Sink) (fuel : Nat) :
    _MessageHandlerBase.DeviceReadyRead sink fuel
      { freshReader [0x00] with reading_protobuf_ := true, buffer_ := [0x41] } = none := by
  induction fuel with
  | zero => rfl
  | succ n ih =>
    have hstep : _MessageHandlerBase.DeviceReadyRead sink (n + 1)
        { freshReader [0x00] with reading_protobuf_ := true, buffer_ := [0x41] } =
      _MessageHandlerBase.DeviceReadyRead sink n
        { freshReader [0x00] with reading_protobuf_ := true, buffer_ := [0x41] } := rfl
    rw [hstep, ih]

/-- C17 at a fresh reader that finds the eight bytes of the frame of "PING". -/
theorem DeviceReadyRead_terminates_witness :
    ∃ h1, _MessageHandlerBase.DeviceReadyRead acceptAll 18 (freshReader (wireFrame PING))
      = some h1 :=
  (DeviceReadyRead_terminates acceptAll (freshReader (wireFrame PING)) 18
    (Or.inl (Reachable.create _)) (by decide)).1

/-! ## The state after a rejection -/

theorem readLength_reading (h : _MessageHandlerBase) :
    h.readLength.reading_protobuf_ = true := by
  unfold _MessageHandlerBase.readLength
  cases hrd : h.reading_protobuf_ <;> simp [hrd]

/-- The sink calls of one `DeviceReadyRead` call: all of them were accepted, or
the last one was rejected and then the state is the one of that call of the
sink (the reader awaits a body, the buffer holds the rejected payload in
full) with the device closed. -/
theorem DeviceReadyRead_calls (sink : Sink) (fuel : Nat) (h h1 : _MessageHandlerBase)
    (hr : _MessageHandlerBase.DeviceReadyRead sink fuel h = some h1) :
    ∃ new : List QByteArray, h1.raw_messages = h.raw_messages ++ new ∧
      ((∀ (pre : List QByteArray) (p : QByteArray) (post : List QByteArray),
          new = pre ++ p :: post → sink (h.raw_messages ++ pre) p = true) ∨
       (∃ (pre : List QByteArray) (p : QByteArray), new = pre ++ [p] ∧
          sink (h.raw_messages ++ pre) p = false ∧
          h1.reading_protobuf_ = true ∧ h1.buffer_ = p ∧ p.length = h1.expected_length_ ∧
          h1.device_.is_open = false)) := by
  have hclosed : ∀ s : _MessageHandlerBase, s.device_.is_open = false →
      ¬ 0 < s.device_.bytesAvailable := by
    intro s hs
    simp [QIODevice.bytesAvailable, hs]
  have hraw : ∀ s : _MessageHandlerBase,
      s.readLength.readSome.raw_messages = s.raw_messages := by
    intro s
    simp [_MessageHandlerBase.readSome, readLength_raw_messages]
  refine DeviceReadyRead_invariant sink
    (fun s => ∃ new : List QByteArray, s.raw_messages = h.raw_messages ++ new ∧
      ((∀ (pre : List QByteArray) (p : QByteArray) (post : List QByteArray),
          new = pre ++ p :: post → sink (h.raw_messages ++ pre) p = true) ∨
       (∃ (pre : List QByteArray) (p : QByteArray), new = pre ++ [p] ∧
          sink (h.raw_messages ++ pre) p = false ∧
          s.reading_protobuf_ = true ∧ s.buffer_ = p ∧ p.length = s.expected_length_ ∧
          s.device_.is_open = false)))
    ?_ ?_ ?_ fuel h h1 ⟨[], by simp, Or.inl (by simp)⟩ hr
  · intro s hs hav hfull hrej
    obtain ⟨new, hnew, hcase⟩ := hs
    rcases hcase with hall | ⟨pre, p, _, _, _, _, _, hcl⟩
    · refine ⟨new ++ [s.readLength.readSome.buffer_], ?_, Or.inr
        ⟨new, s.readLength.readSome.buffer_, rfl, ?_, ?_, rfl, hfull, rfl⟩⟩
      · simp [_MessageHandlerBase.recordCall, _MessageHandlerBase.closeDevice, hraw, hnew]
      · rw [← hnew, ← hraw s]
        exact hrej
      · simp [_MessageHandlerBase.recordCall, _MessageHandlerBase.closeDevice,
          _MessageHandlerBase.readSome, readLength_reading]
    · exact absurd hav (hclosed s hcl)
  · intro s hs hav hfull hacc
    obtain ⟨new, hnew, hcase⟩ := hs
    rcases hcase with hall | ⟨pre, p, _, _, _, _, _, hcl⟩
    · refine ⟨new ++ [s.readLength.readSome.buffer_], ?_, Or.inl ?_⟩
      · simp [_MessageHandlerBase.recordCall, _MessageHandlerBase.clearBuffer, hraw, hnew]
      · intro pre p post hsplit
        rcases List.eq_nil_or_concat post with hpost | ⟨post1, y, hpost⟩
        · subst hpost
          have hinj := List.append_inj' hsplit rfl
          have hp : s.readLength.readSome.buffer_ = p := by
            simpa using hinj.2
          rw [← hinj.1, ← hp, ← hnew, ← hraw s]
          exact hacc
        · subst hpost
          have hsplit1 : new ++ [s.readLength.readSome.buffer_]
              = (pre ++ p :: post1) ++ [y] := by
            simpa [List.append_assoc] using hsplit
          have hinj := List.append_inj' hsplit1 rfl
          exact hall pre p post1 hinj.1
    · exact absurd hav (hclosed s hcl)
  · intro s hs hav _
    obtain ⟨new, hnew, hcase⟩ := hs
    rcases hcase with hall | ⟨pre, p, _, _, _, _, _, hcl⟩
    · exact ⟨new, by rw [hraw, hnew], Or.inl hall⟩
    · exact absurd hav (hclosed s hcl)

/-- C14: when the last call of the sink in a `DeviceReadyRead` call rejected the
payload `p` (the call made with the payloads `pre` before it), the call
returns with the parse state of the moment the sink was called:
`reading_protobuf_` is true, `expected_length_` is the length of `p`, the
buffer holds `p` in full, and the device is closed. -/
theorem no_reset_on_rejection (sink : Sink) (fuel : Nat) (h h1 : _MessageHandlerBase)
    (pre : List QByteArray) (p : QByteArray)
    (hr : _MessageHandlerBase.DeviceReadyRead sink fuel h = some h1)
    (hcalls : h1.raw_messages = h.raw_messages ++ (pre ++ [p]))
    (hrej : sink (h.raw_messages ++ pre) p = false) :
    h1.reading_protobuf_ = true ∧ h1.expected_length_ = p.length ∧ h1.buffer_ = p ∧
    h1.device_.is_open = false := by
  obtain ⟨new, hnew, hcase⟩ := DeviceReadyRead_calls sink fuel h h1 hr
  have hnew1 : new = pre ++ [p] := List.append_cancel_left (hnew.symm.trans hcalls)
  rcases hcase with hall | ⟨pre1, p1, hsplit, _, k1, k2, k3, k4⟩
  · have := hall pre p [] hnew1
    rw [hrej] at this
    exact absurd this (by decide)
  · have hinj := List.append_inj' (hsplit.symm.trans hnew1) rfl
    have hp : p1 = p := by simpa using hinj.2
    subst hp
    exact ⟨k1, k3.symm, k2, k4⟩

/-- C14 at a fresh reader that finds the frame of "PING" and the frame of the
payload `41` behind it, with the sink that rejects everything. -/
theorem no_reset_on_rejection_witness :
    (readerRejectedPING (wireFrame [0x41])).reading_protobuf_ = true ∧
    (readerRejectedPING (wireFrame [0x41])).expected_length_ = PING.length ∧
    (readerRejectedPING (wireFrame [0x41])).buffer_ = PING ∧
    (readerRejectedPING (wireFrame [0x41])).device_.is_open = false :=
  no_reset_on_rejection rejectAll 1 (freshReader (wireFrame PING ++ wireFrame [0x41]))
    (readerRejectedPING (wireFrame [0x41])) [] PING rfl rfl rfl

/-! ## Short headers -/

/-- C16: a `DeviceReadyRead` call on a reader that awaits a header and finds
exactly one, two or three bytes takes these bytes from the device, sets
`expected_length_` to 0 and invokes the sink exactly once, with the empty
payload, whatever the bytes are.  Nothing of the bytes is kept: the buffer is
empty afterwards.  If the sink accepts, the reader awaits a header again; if
it rejects, the device is closed. -/
theorem short_header (sink : Sink) (fuel : Nat) (h : _MessageHandlerBase)
    (hopen : h.device_.is_open = true) (hrd : h.reading_protobuf_ = false)
    (hbuf : h.buffer_ = []) (hk1 : 1 ≤ h.device_.readable.length)
    (hk3 : h.device_.readable.length ≤ 3) :
    _MessageHandlerBase.DeviceReadyRead sink (fuel + 2) h =
      some (if sink h.raw_messages [] then
          { h with device_ := { h.device_ with readable := [] },
                   expected_length_ := 0,
                   raw_messages := h.raw_messages ++ [[]] }
        else
          { h with device_ := { h.device_ with readable := [], is_open := false },
                   expected_length_ := 0,
                   reading_protobuf_ := true,
                   raw_messages := h.raw_messages ++ [[]] }) := by
  obtain ⟨dev, fa, fl, rd, el, buf, cl, raw, ab⟩ := h
  obtain ⟨k, r, w, o, f⟩ := dev
  simp only at hopen hrd hbuf hk1 hk3
  subst hopen hrd hbuf
  have hcases : (∃ a, r = [a]) ∨ (∃ a b, r = [a, b]) ∨ (∃ a b c, r = [a, b, c]) := by
    match r, hk1, hk3 with
    | [a], _, _ => exact Or.inl ⟨a, rfl⟩
    | [a, b], _, _ => exact Or.inr (Or.inl ⟨a, b, rfl⟩)
    | [a, b, c], _, _ => exact Or.inr (Or.inr ⟨a, b, c, rfl⟩)
    | _ :: _ :: _ :: _ :: _, _, h3 => simp at h3
  rcases hcases with ⟨a, rfl⟩ | ⟨a, b, rfl⟩ | ⟨a, b, c, rfl⟩ <;>
    cases hs : sink raw [] <;>
    simp [_MessageHandlerBase.DeviceReadyRead, _MessageHandlerBase.readLength,
      _MessageHandlerBase.readSome, _MessageHandlerBase.recordCall,
      _MessageHandlerBase.closeDevice, _MessageHandlerBase.clearBuffer,
      QDataStream.read_quint32, QIODevice.read, QIODevice.bytesAvailable, QIODevice.close, hs]

/-- C16 at a fresh reader that finds the three bytes `FF FF FF`. -/
theorem short_header_witness :
    _MessageHandlerBase.DeviceReadyRead acceptAll 2 (freshReader [0xFF, 0xFF, 0xFF]) =
      some { freshReader [] with raw_messages := [[]] } :=
  short_header acceptAll 0 (freshReader [0xFF, 0xFF, 0xFF]) rfl rfl rfl (by decide) (by decide)

/-! ## After the close -/

/-- On a closed device `WriteMessage` writes nothing. -/
theorem WriteMessage_closed_device (h : _MessageHandlerBase) (data : QByteArray)
    (hclosed : h.device_.is_open = false) :
    (h.WriteMessage data).device_.written = h.device_.written ∧
    (h.WriteMessage data).device_.is_open = false := by
  have hdev : ∀ d : QIODevice,
      (if h.flush_abstract_socket_ then d.flush
        else if h.flush_local_socket_ then d.flush else d).written = d.written := by
    intro d
    split
    · rfl
    · split <;> rfl
  refine ⟨?_, by rw [(WriteMessage_device_read_side h data).2, hclosed]⟩
  simp only [_MessageHandlerBase.WriteMessage, hdev, QDataStream.write_quint32,
    QDataStream.writeRawData, QIODevice.write, hclosed]
  split <;> simp [hclosed]

/-- C11 as stated fails: after `DeviceClosed` the handler is marked closed
(`is_device_closed_` is true), yet a later `WriteMessage` of "PING" writes its
eight bytes, and a later `DeviceReadyRead` reads the frame of "PING" that
arrived and hands the payload to the sink. -/
theorem closed_handler_still_reads_and_writes :
    (freshReader []).DeviceClosed.is_device_closed_ = true ∧
    ((freshReader []).DeviceClosed.WriteMessage PING).device_.written
      = [0x00, 0x00, 0x00, 0x04, 0x50, 0x49, 0x4E, 0x47] ∧
    _MessageHandlerBase.run acceptAll 2 [Event.readyRead (wireFrame PING)]
        (freshReader []).DeviceClosed =
      some { freshReader [] with
               expected_length_ := 4, is_device_closed_ := true,
               raw_messages := [PING], abort_all_calls := 1 } :=
  ⟨rfl, rfl, rfl⟩

/-- C11 as amended: it is the closed device that ends all traffic, without any
report.  Once the device is closed (as it is after a sink rejection), every
sequence of later events returns, and in it no `WriteMessage` writes a byte,
no `DeviceReadyRead` reads a byte or invokes the sink, and the device stays
closed. -/
theorem closed_device_is_terminal (sink : Sink) (fuel : Nat) :
    ∀ (evs : List Event) (h : _MessageHandlerBase), h.device_.is_open = false →
      ∃ h1, _MessageHandlerBase.run sink (fuel + 1) evs h = some h1 ∧
        h1.device_.written = h.device_.written ∧
        h1.raw_messages = h.raw_messages ∧
        h1.reading_protobuf_ = h.reading_protobuf_ ∧
        h1.expected_length_ = h.expected_length_ ∧
        h1.buffer_ = h.buffer_ ∧
        h.device_.readable <+: h1.device_.readable ∧
        h1.device_.is_open = false := by
  intro evs
  induction evs with
  | nil =>
    intro h hclosed
    exact ⟨h, rfl, rfl, rfl, rfl, rfl, rfl, List.prefix_refl _, hclosed⟩
  | cons e es ih =>
    intro h hclosed
    cases e with
    | readyRead b =>
      have hav : ({ h with device_ := h.device_.arrive b } :
          _MessageHandlerBase).device_.bytesAvailable = 0 := by
        simp [QIODevice.arrive, QIODevice.bytesAvailable, hclosed]
      obtain ⟨h1, hr, k1, k2, k3, k4, k5, k6, k7⟩ :=
        ih { h with device_ := h.device_.arrive b } hclosed
      refine ⟨h1, ?_, k1, k2, k3, k4, k5, (List.prefix_append _ b).trans k6, k7⟩
      simp only [_MessageHandlerBase.run, _MessageHandlerBase.handle]
      rw [DeviceReadyRead_idle sink fuel _ hav]
      exact hr
    | disconnected =>
      obtain ⟨h1, hr, k1, k2, k3, k4, k5, k6, k7⟩ := ih h.DeviceClosed hclosed
      exact ⟨h1, by simpa [_MessageHandlerBase.run, _MessageHandlerBase.handle] using hr,
        k1, k2, k3, k4, k5, k6, k7⟩
    | send data =>
      have hw := WriteMessage_closed_device h data hclosed
      have hrs := WriteMessage_device_read_side h data
      obtain ⟨h1, hr, k1, k2, k3, k4, k5, k6, k7⟩ := ih (h.WriteMessage data) hw.2
      refine ⟨h1, by simpa [_MessageHandlerBase.run, _MessageHandlerBase.handle] using hr,
        k1.trans hw.1, k2, k3, k4, k5, ?_, k7⟩
      rw [hrs.1] at k6
      exact k6

/-- C11 at the reader whose sink rejected "PING": a write of "PING", the frame
of "PING" arriving and the closed event of the transport change neither what
was written nor what the sink was given. -/
theorem closed_device_is_terminal_witness :
    (readerRejectedPING []).device_.is_open = false ∧
    ∃ h1, _MessageHandlerBase.run acceptAll 1
        [Event.send PING, Event.readyRead (wireFrame PING), Event.disconnected]
        (readerRejectedPING []) = some h1 ∧
      h1.device_.written = (readerRejectedPING []).device_.written ∧
      h1.raw_messages = (readerRejectedPING []).raw_messages ∧
      h1.reading_protobuf_ = (readerRejectedPING []).reading_protobuf_ ∧
      h1.expected_length_ = (readerRejectedPING []).expected_length_ ∧
      h1.buffer_ = (readerRejectedPING []).buffer_ ∧
      (readerRejectedPING []).device_.readable <+: h1.device_.readable ∧
      h1.device_.is_open = false :=
  ⟨rfl, closed_device_is_terminal acceptAll 0
    [Event.send PING, Event.readyRead (wireFrame PING), Event.disconnected]
    (readerRejectedPING []) rfl⟩

/-! ## No bound on the frame size -/

theorem read_quint32_lt (d : QIODevice) : (QDataStream.read_quint32 d).1 < 2 ^ 32 := by
  unfold QDataStream.read_quint32
  split
  · rename_i b0 b1 b2 b3 _ _
    have h0 := b0.isLt
    have h1 := b1.isLt
    have h2 := b2.isLt
    have h3 := b3.isLt
    simp only
    omega
  · simp

/-- Every length the reader expects fits the four-byte length field. -/
theorem Reachable_expected_length (sink : Sink) (h : _MessageHandlerBase)
    (hreach : Reachable sink h) : h.expected_length_ < 2 ^ 32 := by
  have hlen : ∀ s : _MessageHandlerBase, s.expected_length_ < 2 ^ 32 →
      s.readLength.expected_length_ < 2 ^ 32 := by
    intro s hs
    unfold _MessageHandlerBase.readLength
    split
    · exact read_quint32_lt _
    · exact hs
  induction hreach with
  | create device => simp [_MessageHandlerBase.create]
  | arrive s newBytes _ ih => exact ih
  | closed s _ ih => exact ih
  | send s data _ ih => exact ih
  | lengthRead s _ _ ih => exact hlen s ih
  | rejected s _ _ _ _ ih => exact hlen s ih
  | accepted s _ _ _ _ ih => exact hlen s ih
  | incomplete s _ _ _ ih => exact hlen s ih

/-- C12 as stated fails for the maximum 1: a fresh reader that finds the length
field `00 00 00 04` and two body bytes decodes the length 4, which exceeds 1,
and still moves both bytes into its buffer, which then holds more than 1
byte; nothing is rejected and the device stays open. -/
theorem oversized_frame_is_buffered :
    ∃ h1, _MessageHandlerBase.DeviceReadyRead rejectAll 2
        (freshReader [0x00, 0x00, 0x00, 0x04, 0x50, 0x49]) = some h1 ∧
      1 < h1.expected_length_ ∧ 1 < h1.buffer_.length ∧ h1.buffer_ = [0x50, 0x49] ∧
      h1.device_.is_open = true ∧ h1.raw_messages = [] :=
  ⟨{ freshReader [] with
      reading_protobuf_ := true, expected_length_ := 4, buffer_ := [0x50, 0x49] },
    rfl, by decide, by decide, rfl, rfl, rfl⟩

/-- C12 as amended: the reader has no maximum of its own.  A header with any
length field `n` up to 2^32 - 1 is accepted, and the body bytes that are
available (here fewer than `n`) are moved into the buffer with the device left
open and the sink not asked.  The only bound is the width of the length
field: in every reachable state the buffer holds at most `expected_length_`
bytes, and that is at most 2^32 - 1. -/
theorem no_frame_size_limit (sink : Sink) (fuel : Nat) :
    (∀ (kind : DeviceKind) (n : Nat) (c : QByteArray), n < 2 ^ 32 → c.length < n →
      _MessageHandlerBase.DeviceReadyRead sink (fuel + 2)
          (_MessageHandlerBase.create (deviceWith kind (encode_quint32 n ++ c))) =
        some { _MessageHandlerBase.create (deviceWith kind []) with
                 reading_protobuf_ := true, expected_length_ := n, buffer_ := c }) ∧
    (∀ h : _MessageHandlerBase, Reachable sink h →
      h.buffer_.length ≤ h.expected_length_ ∧ h.expected_length_ ≤ 2 ^ 32 - 1) := by
  constructor
  · intro kind n c hn hc
    exact DeviceReadyRead_header_partial sink fuel
      (_MessageHandlerBase.create (deviceWith kind (encode_quint32 n ++ c))) n c
      rfl rfl rfl hn hc rfl
  · intro h hreach
    have hb := Reachable_buffer_bound sink h hreach
    have he : (h.expected_length_ : Nat) < 2 ^ 32 := Reachable_expected_length sink h hreach
    refine ⟨?_, Nat.le_sub_one_of_lt he⟩
    cases hrd : h.reading_protobuf_
    · rw [hb.2 hrd]
      exact Nat.zero_le _
    · exact hb.1 hrd

/-- C12 at the length field 2^32 - 1 with one body byte, and at the reader that
waits for the last three bytes of "PING". -/
theorem no_frame_size_limit_witness :
    _MessageHandlerBase.DeviceReadyRead acceptAll 2
        (_MessageHandlerBase.create (deviceWith DeviceKind.localSocket
          (encode_quint32 (2 ^ 32 - 1) ++ [0x41]))) =
      some { _MessageHandlerBase.create (deviceWith DeviceKind.localSocket []) with
               reading_protobuf_ := true, expected_length_ := 2 ^ 32 - 1, buffer_ := [0x41] } ∧
    readerMidPING.buffer_.length ≤ readerMidPING.expected_length_ ∧
    readerMidPING.expected_length_ ≤ 2 ^ 32 - 1 :=
  ⟨(no_frame_size_limit acceptAll 0).1 DeviceKind.localSocket (2 ^ 32 - 1) [0x41]
      (by decide) (by decide),
   (no_frame_size_limit acceptAll 0).2 readerMidPING
      (run_reachable acceptAll 2 [Event.readyRead [0x00, 0x00, 0x00, 0x04, 0x50]]
        (freshReader []) readerMidPING (Reachable.create _) rfl)⟩

/-! ## Fragmentation away from the length fields -/

theorem flatten_map_singleton (l : QByteArray) : (l.map (fun b => [b])).flatten = l := by
  induction l with
  | nil => rfl
  | cons x xs ih => simp [ih]

theorem streamPieces_cons (P : QByteArray) (Ps : List QByteArray) :
    streamPieces (P :: Ps) =
      encode_quint32 P.length :: (P.map (fun b => [b]) ++ streamPieces Ps) := by
  simp [streamPieces, framePieces]

theorem streamPieces_flatten (Ps : List QByteArray) :
    (streamPieces Ps).flatten = wireFrames Ps := by
  induction Ps with
  | nil => rfl
  | cons P Ps ih =>
    rw [streamPieces_cons, wireFrames_cons]
    simp [ih, flatten_map_singleton, wireFrame]

theorem streamPieces_eq_nil (Ps : List QByteArray) (hnil : streamPieces Ps = []) : Ps = [] := by
  cases Ps with
  | nil => rfl
  | cons P Ps => simp [streamPieces_cons] at hnil

theorem streamPieces_length (Ps : List QByteArray) : Ps.length ≤ (streamPieces Ps).length := by
  induction Ps with
  | nil => simp [streamPieces]
  | cons P Ps ih =>
    rw [streamPieces_cons]
    simp only [List.length_cons, List.length_append]
    omega

/-- One `DeviceReadyRead` call on a chunk that is a group of pieces: a reader in
step with the stream reads the whole chunk and is in step with what is left
of the stream, provided the sink accepts the payloads of the stream. -/
theorem DeviceReadyRead_pieces (sink : Sink) (payloads raw0 : List QByteArray)
    (hlen : ∀ P ∈ payloads, P.length < 2 ^ 32)
    (hacc : ∀ pre P post, payloads = pre ++ P :: post → sink (raw0 ++ pre) P = true) :
    ∀ (n : Nat) (g rest : List QByteArray) (h : _MessageHandlerBase) (fuel : Nat),
      g.length ≤ n → InStep payloads raw0 h (g ++ rest) →
      h.device_.is_open = true → h.device_.readable = g.flatten → g.length + 1 ≤ fuel →
      ∃ h1, _MessageHandlerBase.DeviceReadyRead sink fuel h = some h1 ∧
        InStep payloads raw0 h1 rest ∧ h1.device_.is_open = true ∧
        h1.device_.readable = [] := by
  intro n
  induction n with
  | zero =>
    intro g rest h fuel hg hstep hopen hq hfuel
    have hnil : g = [] := List.length_eq_zero.mp (Nat.le_zero.mp hg)
    subst hnil
    obtain ⟨k, rfl⟩ : ∃ k, fuel = k + 1 := ⟨fuel - 1, by omega⟩
    have hav : h.device_.bytesAvailable = 0 := by
      simp [QIODevice.bytesAvailable, hq]
    exact ⟨h, DeviceReadyRead_idle sink k h hav, by simpa using hstep, hopen, by simpa using hq⟩
  | succ n ih =>
    intro g rest h fuel hg hstep hopen hq hfuel
    cases g with
    | nil =>
      obtain ⟨k, rfl⟩ : ∃ k, fuel = k + 1 := ⟨fuel - 1, by omega⟩
      have hav : h.device_.bytesAvailable = 0 := by
        simp [QIODevice.bytesAvailable, hq]
      exact ⟨h, DeviceReadyRead_idle sink k h hav, by simpa using hstep, hopen,
        by simpa using hq⟩
    | cons t g1 =>
      simp only [List.length_cons] at hg hfuel
      obtain ⟨k, rfl⟩ : ∃ k, fuel = k + 1 + 1 := ⟨fuel - 2, by omega⟩
      obtain ⟨done, todo, hraw, hcase⟩ := hstep
      rcases hcase with ⟨hrd, hbuf, hpay, hpieces⟩ | ⟨hrd, m, hm, hexp, hpay, hpieces⟩
      · -- the reader awaits a header: the chunk begins with a length field
        cases todo with
        | nil => simp [streamPieces] at hpieces
        | cons P todo1 =>
          rw [streamPieces_cons] at hpieces
          simp only [List.cons_append, List.cons.injEq] at hpieces
          obtain ⟨ht, hrest⟩ := hpieces
          subst ht
          have hP : P.length < 2 ^ 32 := hlen P (by rw [hpay]; simp)
          have hsink : sink h.raw_messages P = true := by
            rw [hraw]
            exact hacc done P todo1 hpay
          rcases List.append_eq_append_iff.mp hrest with ⟨a1, ha, hr1⟩ | ⟨c1, hc, hr1⟩
          · -- the chunk ends inside the body (or at its end)
            obtain ⟨l1, l2, hl, hl1, hl2⟩ := List.map_eq_append_iff.mp ha
            have hflat : g1.flatten = l1 := by rw [← hl1, flatten_map_singleton]
            by_cases hl2nil : l2 = []
            · subst hl2nil
              simp only [List.append_nil] at hl
              subst hl
              simp only [List.map_nil] at hl2
              subst hl2
              have hq1 : h.device_.readable = wireFrame P ++ [] := by
                rw [hq]
                simp [wireFrame, hflat]
              have key : _MessageHandlerBase.DeviceReadyRead sink (k + 1 + 1) h = some
                  { h with device_ := { h.device_ with readable := [] },
                           expected_length_ := P.length,
                           raw_messages := h.raw_messages ++ [P] } := by
                rw [DeviceReadyRead_frame sink (k + 1) h P [] hopen hrd hbuf hP hq1,
                  if_pos hsink, DeviceReadyRead_idle]
                simp [QIODevice.bytesAvailable]
              refine ⟨_, key, ⟨done ++ [P], todo1, ?_, Or.inl ⟨hrd, hbuf, ?_, ?_⟩⟩, hopen, rfl⟩
              · simp [hraw, List.append_assoc]
              · simp [hpay, List.append_assoc]
              · simpa using hr1
            · have hlt : l1.length < P.length := by
                have : 0 < l2.length := List.length_pos.mpr hl2nil
                rw [hl, List.length_append]
                omega
              have hq1 : h.device_.readable = encode_quint32 P.length ++ l1 := by
                rw [hq]
                simp [hflat]
              have key : _MessageHandlerBase.DeviceReadyRead sink (k + 1 + 1) h = some
                  { h with device_ := { h.device_ with readable := [] },
                           reading_protobuf_ := true,
                           expected_length_ := P.length,
                           buffer_ := l1 } :=
                DeviceReadyRead_header_partial sink k h P.length l1 hopen hrd hbuf hP hlt hq1
              refine ⟨_, key, ⟨done, todo1, hraw, Or.inr ⟨rfl, l2, hl2nil, ?_, ?_, ?_⟩⟩,
                hopen, rfl⟩
              · show l1.length + l2.length = P.length
                rw [hl, List.length_append]
              · show payloads = done ++ (l1 ++ l2) :: todo1
                rw [← hl]
                exact hpay
              · rw [hr1, hl2]
          · -- the chunk holds the whole frame and more
            have hq1 : h.device_.readable = wireFrame P ++ c1.flatten := by
              rw [hq, hc]
              simp [wireFrame, flatten_map_singleton]
            have hc1len : c1.length ≤ n := by
              have := congrArg List.length hc
              simp only [List.length_append, List.length_map] at this
              omega
            obtain ⟨h1, hr, hs1, ho1, hq2⟩ := ih c1 rest
              { h with device_ := { h.device_ with readable := c1.flatten },
                       expected_length_ := P.length,
                       raw_messages := h.raw_messages ++ [P] }
              (k + 1) hc1len
              ⟨done ++ [P], todo1, by simp [hraw, List.append_assoc],
                Or.inl ⟨hrd, hbuf, by simp [hpay, List.append_assoc], hr1.symm⟩⟩
              hopen rfl (by
                have := congrArg List.length hc
                simp only [List.length_append, List.length_map] at this
                omega)
            refine ⟨h1, ?_, hs1, ho1, hq2⟩
            rw [DeviceReadyRead_frame sink (k + 1) h P c1.flatten hopen hrd hbuf hP hq1,
              if_pos hsink]
            exact hr
      · -- the reader awaits the bytes `m` of a body
        have hsink : sink h.raw_messages (h.buffer_ ++ m) = true := by
          rw [hraw]
          exact hacc done (h.buffer_ ++ m) todo hpay
        rcases List.append_eq_append_iff.mp hpieces with ⟨a1, ha, hr1⟩ | ⟨c1, hc, hr1⟩
        · -- the chunk ends inside the body (or at its end)
          obtain ⟨l1, l2, hl, hl1, hl2⟩ := List.map_eq_append_iff.mp ha
          have hflat : (t :: g1).flatten = l1 := by rw [← hl1, flatten_map_singleton]
          have hl1ne : l1 ≠ [] := by
            intro hnil
            rw [hnil] at hl1
            simp at hl1
          by_cases hl2nil : l2 = []
          · subst hl2nil
            simp only [List.append_nil] at hl
            subst hl
            simp only [List.map_nil] at hl2
            subst hl2
            have hq1 : h.device_.readable = m ++ [] := by
              rw [hq, hflat, List.append_nil]
            have key : _MessageHandlerBase.DeviceReadyRead sink (k + 1 + 1) h = some
                { h with device_ := { h.device_ with readable := [] },
                         reading_protobuf_ := false,
                         buffer_ := [],
                         raw_messages := h.raw_messages ++ [h.buffer_ ++ m] } := by
              rw [DeviceReadyRead_body sink (k + 1) h m [] hopen hrd hexp hq1 (by simpa using hm),
                if_pos hsink, DeviceReadyRead_idle]
              simp [QIODevice.bytesAvailable]
            refine ⟨_, key, ⟨done ++ [h.buffer_ ++ m], todo, ?_, Or.inl ⟨rfl, rfl, ?_, ?_⟩⟩,
              hopen, rfl⟩
            · simp [hraw, List.append_assoc]
            · simp [hpay, List.append_assoc]
            · simpa using hr1
          · have hlt : h.buffer_.length + l1.length < h.expected_length_ := by
              have : 0 < l2.length := List.length_pos.mpr hl2nil
              have hexp1 : h.buffer_.length + m.length = (h.expected_length_ : Nat) := hexp
              rw [hl, List.length_append] at hexp1
              show h.buffer_.length + l1.length < (h.expected_length_ : Nat)
              omega
            have hq1 : h.device_.readable = l1 := by rw [hq, hflat]
            have key : _MessageHandlerBase.DeviceReadyRead sink (k + 1 + 1) h = some
                { h with device_ := { h.device_ with readable := [] },
                         buffer_ := h.buffer_ ++ l1 } :=
              DeviceReadyRead_body_partial sink k h l1 hopen hrd hlt hq1
            refine ⟨_, key, ⟨done, todo, hraw, Or.inr ⟨hrd, l2, hl2nil, ?_, ?_, ?_⟩⟩,
              hopen, rfl⟩
            · show (h.buffer_ ++ l1).length + l2.length = h.expected_length_
              rw [← hexp, hl]
              simp [List.length_append, Nat.add_assoc]
            · show payloads = done ++ ((h.buffer_ ++ l1) ++ l2) :: todo
              rw [List.append_assoc, ← hl]
              exact hpay
            · rw [hr1, hl2]
        · -- the chunk holds the rest of the body and more
          have hq1 : h.device_.readable = m ++ c1.flatten := by
            rw [hq, hc]
            simp [flatten_map_singleton]
          have hmlen : 0 < m.length := List.length_pos.mpr hm
          have hlen1 : m.length + c1.length = g1.length + 1 := by
            have := congrArg List.length hc
            simp only [List.length_append, List.length_map, List.length_cons] at this
            omega
          obtain ⟨h1, hr, hs1, ho1, hq2⟩ := ih c1 rest
            { h with device_ := { h.device_ with readable := c1.flatten },
                     reading_protobuf_ := false,
                     buffer_ := [],
                     raw_messages := h.raw_messages ++ [h.buffer_ ++ m] }
            (k + 1) (by omega)
            ⟨done ++ [h.buffer_ ++ m], todo, by simp [hraw, List.append_assoc],
              Or.inl ⟨rfl, rfl, by simp [hpay, List.append_assoc], hr1.symm⟩⟩
            hopen rfl (by omega)
          refine ⟨h1, ?_, hs1, ho1, hq2⟩
          rw [DeviceReadyRead_body sink (k + 1) h m c1.flatten hopen hrd hexp hq1
            (by simp [hm]), if_pos hsink]
          exact hr

/-- A sequence of chunks that are groups of pieces, one `DeviceReadyRead` call
per chunk: the reader stays in step with the stream. -/
theorem run_pieces (sink : Sink) (payloads raw0 : List QByteArray) (fuel : Nat)
    (hlen : ∀ P ∈ payloads, P.length < 2 ^ 32)
    (hacc : ∀ pre P post, payloads = pre ++ P :: post → sink (raw0 ++ pre) P = true) :
    ∀ (groups : List (List QByteArray)) (rest : List QByteArray) (h : _MessageHandlerBase),
      InStep payloads raw0 h (groups.flatten ++ rest) →
      h.device_.is_open = true → h.device_.readable = [] →
      (∀ g ∈ groups, g.length + 1 ≤ fuel) →
      ∃ h1, _MessageHandlerBase.run sink fuel
          (groups.map (fun g => Event.readyRead g.flatten)) h = some h1 ∧
        InStep payloads raw0 h1 rest ∧ h1.device_.is_open = true ∧
        h1.device_.readable = [] := by
  intro groups
  induction groups with
  | nil =>
    intro rest h hstep hopen hq _
    exact ⟨h, rfl, by simpa using hstep, hopen, hq⟩
  | cons g gs ih =>
    intro rest h hstep hopen hq hfuel
    have hstep1 : InStep payloads raw0
        { h with device_ := h.device_.arrive g.flatten } (g ++ (gs.flatten ++ rest)) := by
      simpa [List.append_assoc] using hstep
    obtain ⟨h1, hr1, hs1, ho1, hq1⟩ := DeviceReadyRead_pieces sink payloads raw0 hlen hacc
      g.length g (gs.flatten ++ rest) { h with device_ := h.device_.arrive g.flatten } fuel
      (Nat.le_refl _) hstep1 hopen (by simp [QIODevice.arrive, hq])
      (hfuel g (List.mem_cons_self _ _))
    obtain ⟨h2, hr2, hs2, ho2, hq2⟩ := ih rest h1 hs1 ho1 hq1
      (fun x hx => hfuel x (List.mem_cons_of_mem _ hx))
    refine ⟨h2, ?_, hs2, ho2, hq2⟩
    simp only [List.map_cons, _MessageHandlerBase.run, _MessageHandlerBase.handle, hr1]
    exact hr2

/-- C15: for every list of payloads that have a frame (each shorter than 2^32
bytes) and every chunking of the stream of their frames that splits no length
field (the chunks are the groups of a grouping of the pieces of the stream:
whole length fields and single body bytes), a fresh reader whose sink accepts
the payloads, fed one `DeviceReadyRead` call per chunk, returns from every
call, and the sink got exactly the payloads, in order: the same calls as when
the whole stream is fed in one call.  The reader awaits a header with an empty
buffer at the end. -/
theorem fragmentation_away_from_headers (sink : Sink) (kind : DeviceKind) (fuel : Nat)
    (payloads : List QByteArray) (groups : List (List QByteArray))
    (hlen : ∀ P ∈ payloads, P.length < 2 ^ 32)
    (hgroups : groups.flatten = streamPieces payloads)
    (hacc : ∀ pre P post, payloads = pre ++ P :: post → sink pre P = true)
    (hfuel : ∀ g ∈ groups, g.length + 1 ≤ fuel) :
    (groups.map List.flatten).flatten = wireFrames payloads ∧
    (∃ h1, _MessageHandlerBase.run sink fuel
        (groups.map (fun g => Event.readyRead g.flatten))
        (_MessageHandlerBase.create (deviceWith kind [])) = some h1 ∧
      h1.raw_messages = payloads ∧ h1.reading_protobuf_ = false ∧ h1.buffer_ = [] ∧
      h1.device_.readable = []) ∧
    (∃ h2, _MessageHandlerBase.run sink (payloads.length + 1)
        [Event.readyRead (wireFrames payloads)]
        (_MessageHandlerBase.create (deviceWith kind [])) = some h2 ∧
      h2.raw_messages = payloads) := by
  have hacc0 : ∀ pre P post, payloads = pre ++ P :: post → sink ([] ++ pre) P = true := by
    intro pre P post hp
    simpa using hacc pre P post hp
  refine ⟨?_, ?_, ?_⟩
  · rw [← streamPieces_flatten, ← hgroups]
    simp [List.flatten_flatten]
  · obtain ⟨h1, hr, hs, _, hq⟩ := run_pieces sink payloads [] fuel hlen hacc0 groups []
      (_MessageHandlerBase.create (deviceWith kind []))
      ⟨[], payloads, rfl, Or.inl ⟨rfl, rfl, rfl, by simpa using hgroups⟩⟩
      rfl rfl hfuel
    refine ⟨h1, hr, ?_⟩
    obtain ⟨done, todo, hraw, hcase⟩ := hs
    rcases hcase with ⟨hrd, hbuf, hpay, hpieces⟩ | ⟨_, m, hm, _, _, hpieces⟩
    · have htodo : todo = [] := streamPieces_eq_nil todo hpieces.symm
      subst htodo
      refine ⟨?_, hrd, hbuf, hq⟩
      rw [hraw, hpay]
      simp
    · exfalso
      have := congrArg List.length hpieces
      have hmlen : 0 < m.length := List.length_pos.mpr hm
      simp only [List.length_nil, List.length_append, List.length_map] at this
      omega
  · have hr := DeviceReadyRead_frames sink 1 payloads
      { _MessageHandlerBase.create (deviceWith kind []) with
          device_ := (deviceWith kind []).arrive (wireFrames payloads) }
      [] rfl rfl rfl hlen (by simp [QIODevice.arrive, deviceWith])
      (by
        intro pre P post hp
        simpa [_MessageHandlerBase.create] using hacc pre P post hp)
    have hid := DeviceReadyRead_idle sink 0
      { _MessageHandlerBase.create (deviceWith kind []) with
          device_ := { (deviceWith kind []).arrive (wireFrames payloads) with readable := [] },
          expected_length_ := payloads.foldl (fun _ P => P.length) 0,
          raw_messages := [] ++ payloads }
      (by simp [QIODevice.bytesAvailable])
    obtain ⟨h2, hh2, hraw2⟩ : ∃ h2, _MessageHandlerBase.DeviceReadyRead sink
        (payloads.length + 1)
        { _MessageHandlerBase.create (deviceWith kind []) with
            device_ := (deviceWith kind []).arrive (wireFrames payloads) } = some h2 ∧
        h2.raw_messages = payloads := ⟨_, hr.trans hid, by simp⟩
    refine ⟨h2, ?_, hraw2⟩
    simp only [_MessageHandlerBase.run, _MessageHandlerBase.handle]
    have hcreate : (_MessageHandlerBase.create (deviceWith kind [])).device_
        = deviceWith kind [] := rfl
    rw [hcreate, hh2]

/-- C15 at the frames of "PING" and of the empty payload, cut after the first
length field, inside the body of "PING" and before the second length
field. -/
theorem fragmentation_away_from_headers_witness :
    ([[[0x00, 0x00, 0x00, 0x04]], [[0x50], [0x49]], [[0x4E], [0x47]],
        [[0x00, 0x00, 0x00, 0x00]]].map List.flatten).flatten = wireFrames [PING, []] ∧
    (∃ h1, _MessageHandlerBase.run acceptAll 3
        ([[[0x00, 0x00, 0x00, 0x04]], [[0x50], [0x49]], [[0x4E], [0x47]],
          [[0x00, 0x00, 0x00, 0x00]]].map (fun g => Event.readyRead g.flatten))
        (_MessageHandlerBase.create (deviceWith DeviceKind.localSocket [])) = some h1 ∧
      h1.raw_messages = [PING, []] ∧ h1.reading_protobuf_ = false ∧ h1.buffer_ = [] ∧
      h1.device_.readable = []) ∧
    (∃ h2, _MessageHandlerBase.run acceptAll ([PING, []].length + 1)
        [Event.readyRead (wireFrames [PING, []])]
        (_MessageHandlerBase.create (deviceWith DeviceKind.localSocket [])) = some h2 ∧
      h2.raw_messages = [PING, []]) :=
  fragmentation_away_from_headers acceptAll DeviceKind.localSocket 3 [PING, []]
    [[[0x00, 0x00, 0x00, 0x04]], [[0x50], [0x49]], [[0x4E], [0x47]],
      [[0x00, 0x00, 0x00, 0x00]]]
    (by decide) (by decide) (fun _ _ _ _ => rfl) (by decide)

end Strawberry
